import Mathlib

/-!
Verification of the Helianthus reflection code generator
(`src/Shared/Reflection/reflection_codegen.py`).

The Python source is shallowly embedded below: every pure string-processing
helper is transliterated into an executable Lean function, file-system state
is modelled as an explicit association list from paths (component lists) to
file contents, and the regular expressions of the source are embedded as
hand-written scanners with the same matching semantics (ASCII approximation
of the `re` module's Unicode word/space classes, which is exact on the
inputs considered here).
-/

set_option maxRecDepth 100000

/-! ## Basic character and string helpers -/

/-- ASCII approximation of the regex class `[A-Za-z_]` (identifier start). -/
def isIdentStart (c : Char) : Bool := c.isAlpha || c = '_'

/-- ASCII approximation of the regex class `[A-Za-z0-9_]` (`\w`). -/
def isWordChar (c : Char) : Bool := c.isAlphanum || c = '_'

/-- Bool-valued "n occurs as a contiguous sublist of h". -/
def listInfix (n : List Char) : List Char → Bool
  | [] => n.isPrefixOf []
  | c :: cs => n.isPrefixOf (c :: cs) || listInfix n cs

/-- Python `needle in hay` substring test. -/
def strContains (hay needle : String) : Bool := listInfix needle.data hay.data

/-- Python `str.strip()` (ASCII whitespace). -/
def pyStrip (s : String) : String :=
  String.mk (((s.data.dropWhile Char.isWhitespace).reverse.dropWhile Char.isWhitespace).reverse)

/-- Python `str.split(sep)` for a single-character separator. -/
def splitOnCharGo (sep : Char) : List Char → List (List Char)
  | [] => [[]]
  | c :: cs =>
    match splitOnCharGo sep cs with
    | g :: gs => if c = sep then [] :: g :: gs else (c :: g) :: gs
    | [] => [[c]]

def pySplitOnChar (sep : Char) (s : String) : List String :=
  (splitOnCharGo sep s.data).map String.mk

/-- Python `str.split()` (split on whitespace runs, dropping empties). -/
def pySplitWsGo : List Char → Option (List Char) → List String → List String
  | [], some run, acc => acc ++ [String.mk run.reverse]
  | [], none, acc => acc
  | c :: cs, some run, acc =>
    if c.isWhitespace then pySplitWsGo cs none (acc ++ [String.mk run.reverse])
    else pySplitWsGo cs (some (c :: run)) acc
  | c :: cs, none, acc =>
    if c.isWhitespace then pySplitWsGo cs none acc
    else pySplitWsGo cs (some [c]) acc

def pySplitWs (s : String) : List String := pySplitWsGo s.data none []

/-- Python `str.replace` (left-to-right, non-overlapping; pattern nonempty
in every use in the source).  Structural recursion on a fuel argument that
the wrapper instantiates with the input length, which always suffices
because every step consumes at least one character. -/
def replaceGo (pat rep : List Char) : Nat → List Char → List Char
  | _, [] => []
  | 0, l => l
  | fuel + 1, c :: cs =>
    if pat ≠ [] && pat.isPrefixOf (c :: cs) then
      rep ++ replaceGo pat rep fuel ((c :: cs).drop pat.length)
    else c :: replaceGo pat rep fuel cs

def pyReplace (s pat rep : String) : String :=
  String.mk (replaceGo pat.data rep.data s.data.length s.data)

/-- Python `str.lower()` (ASCII). -/
def pyLower (s : String) : String := String.mk (s.data.map Char.toLower)

/-- `re.match` against `[A-Za-z_][A-Za-z0-9_]*$` (the source's `_IDENT_RE`). -/
def isIdentString (s : String) : Bool :=
  match s.data with
  | [] => false
  | c :: cs => isIdentStart c && cs.all isWordChar

/-- Drop leading regex-`\s` characters. -/
def skipWsL (l : List Char) : List Char := l.dropWhile Char.isWhitespace

/-- Match a literal character sequence, returning the remainder. -/
def litL : List Char → List Char → Option (List Char)
  | [], rest => some rest
  | _, [] => none
  | p :: ps, c :: cs => if p = c then litL ps cs else none

/-- Greedy `[A-Za-z_][A-Za-z0-9_]*` at the head of the list (empty if none). -/
def takeIdent : List Char → List Char
  | [] => []
  | c :: cs => if isIdentStart c then c :: cs.takeWhile isWordChar else []

/-! ## `split_params` (reflection_codegen.py lines 274-340)

A character-by-character transliteration of the Python loop.  The state
carries the accumulated parts, the current buffer and the four nesting /
quoting trackers; every branch mirrors one branch of the source. -/

structure SPState where
  parts : List String
  buf : List Char
  dAngle : Nat
  dParen : Nat
  dBrace : Nat
  inSingle : Bool
  inDouble : Bool
  esc : Bool
deriving Repr

def spStep (st : SPState) (ch : Char) : SPState :=
  if st.inSingle then
    let st := { st with buf := st.buf ++ [ch] }
    if !st.esc && ch = '\\' then { st with esc := true }
    else if st.esc then { st with esc := false }
    else if ch = '\'' then { st with inSingle := false }
    else st
  else if st.inDouble then
    let st := { st with buf := st.buf ++ [ch] }
    if !st.esc && ch = '\\' then { st with esc := true }
    else if st.esc then { st with esc := false }
    else if ch = '"' then { st with inDouble := false }
    else st
  else if ch = '\'' then { st with inSingle := true, buf := st.buf ++ [ch] }
  else if ch = '"' then { st with inDouble := true, buf := st.buf ++ [ch] }
  else if ch = '<' then { st with dAngle := st.dAngle + 1, buf := st.buf ++ [ch] }
  else if ch = '>' then
    { st with dAngle := if st.dAngle > 0 then st.dAngle - 1 else st.dAngle,
              buf := st.buf ++ [ch] }
  else if ch = '(' then { st with dParen := st.dParen + 1, buf := st.buf ++ [ch] }
  else if ch = ')' then
    { st with dParen := if st.dParen > 0 then st.dParen - 1 else st.dParen,
              buf := st.buf ++ [ch] }
  else if ch = '\x7b' then { st with dBrace := st.dBrace + 1, buf := st.buf ++ [ch] }
  else if ch = '\x7d' then
    { st with dBrace := if st.dBrace > 0 then st.dBrace - 1 else st.dBrace,
              buf := st.buf ++ [ch] }
  else if ch = ',' && st.dAngle = 0 && st.dParen = 0 && st.dBrace = 0 then
    { st with parts := st.parts ++ [pyStrip (String.mk st.buf)], buf := [] }
  else { st with buf := st.buf ++ [ch] }

def split_params (s : String) : List String :=
  let st := s.data.foldl spStep ⟨[], [], 0, 0, 0, false, false, false⟩
  let parts := if st.buf ≠ [] then st.parts ++ [pyStrip (String.mk st.buf)] else st.parts
  parts.filter (fun p => p ≠ "")

/-! ## `extract_param_name` (lines 344-376) -/

/-- Try to close a `[[...]]` attribute: the regex `\[\[[^\]]*\]\]` after the
opening `[[` requires a run of non-`]` characters followed by `]]`. -/
def detachAttr (rest : List Char) : Option (List Char) :=
  match rest.drop ((rest.takeWhile (fun c => c ≠ ']')).length) with
  | ']' :: ']' :: rest2 => some rest2
  | _ => none

/-- `re.sub(r"\[\[[^\]]*\]\]", " ", ...)` as a left-to-right scan
(fuel-structural; fuel = input length always suffices). -/
def stripBracketAttrsGo : Nat → List Char → List Char
  | _, [] => []
  | 0, l => l
  | fuel + 1, '[' :: '[' :: rest =>
    match detachAttr rest with
    | some rest2 => ' ' :: stripBracketAttrsGo fuel rest2
    | none => '[' :: stripBracketAttrsGo fuel ('[' :: rest)
  | fuel + 1, c :: cs => c :: stripBracketAttrsGo fuel cs

def stripBracketAttrs (l : List Char) : List Char := stripBracketAttrsGo l.length l

/-- `re.sub(r"__attribute__\s*\(.*?\)", " ", ...)`: after the literal and
optional whitespace and `(`, the lazy `.*?` stops at the first `)`. -/
def detachAttributeCall (l : List Char) : Option (List Char) :=
  match litL ("__attribute__".data) l with
  | none => none
  | some r1 =>
    match skipWsL r1 with
    | '(' :: r3 =>
      match r3.drop ((r3.takeWhile (fun c => c ≠ ')')).length) with
      | ')' :: r4 => some r4
      | _ => none
    | _ => none

def stripAttributeCallsGo : Nat → List Char → List Char
  | _, [] => []
  | 0, l => l
  | fuel + 1, c :: cs =>
    if c = '_' then
      match detachAttributeCall (c :: cs) with
      | some rest => ' ' :: stripAttributeCallsGo fuel rest
      | none => c :: stripAttributeCallsGo fuel cs
    else c :: stripAttributeCallsGo fuel cs

def stripAttributeCalls (l : List Char) : List Char := stripAttributeCallsGo l.length l

/-- The part of the function-pointer regex after the optional
`Class ::` group: `[*&]\s*([A-Za-z_][A-Za-z0-9_]*)\s*\)` — the capture is
the parameter name. -/
def matchFptrTail (r : List Char) : Option String :=
  match r with
  | c :: r2 =>
    if c = '*' || c = '&' then
      match takeIdent (skipWsL r2) with
      | [] => none
      | nm =>
        match skipWsL ((skipWsL r2).drop nm.length) with
        | ')' :: _ => some (String.mk nm)
        | _ => none
    else none
  | [] => none

/-- One attempt of the source's function-pointer regex
`\(\s*(?:[A-Za-z_][A-Za-z0-9_]*\s*::\s*)?[*&]\s*([A-Za-z_][A-Za-z0-9_]*)\s*\)`
anchored at the head of the list; the optional `Class ::` group is tried
first and the engine falls back to the group-less alternative, exactly as
backtracking does. -/
def matchFptrAt (cs : List Char) : Option String :=
  match cs with
  | '(' :: rest =>
    let r := skipWsL rest
    let withGroup :=
      match takeIdent r with
      | [] => none
      | nm0 =>
        match skipWsL (r.drop nm0.length) with
        | ':' :: ':' :: r3 => matchFptrTail (skipWsL r3)
        | _ => none
    match withGroup with
    | some x => some x
    | none => matchFptrTail r
  | _ => none

/-- `re.search` of the function-pointer pattern: first position (leftmost)
where a match starts. -/
def searchFptr : List Char → Option String
  | [] => none
  | c :: cs =>
    match matchFptrAt (c :: cs) with
    | some nm => some nm
    | none => searchFptr cs

/-- Python `re.finditer(r"[A-Za-z_][A-Za-z0-9_]*", s)`: the list of matched
identifier tokens, scanning left to right, greedy, non-overlapping. -/
def findIdentsGo : List Char → Option (List Char) → List String → List String
  | [], some run, acc => acc ++ [String.mk run.reverse]
  | [], none, acc => acc
  | c :: cs, some run, acc =>
    if isWordChar c then findIdentsGo cs (some (c :: run)) acc
    else findIdentsGo cs none (acc ++ [String.mk run.reverse])
  | c :: cs, none, acc =>
    if isIdentStart c then findIdentsGo cs (some [c]) acc
    else findIdentsGo cs none acc

def findIdents (l : List Char) : List String := findIdentsGo l none []

/-- Step (a) of `extract_param_name`: drop a default value
(`param.split('=')[0].strip()` when `'=' in param`). -/
def removeDefault (p : String) : String :=
  if p.data.contains '=' then pyStrip (String.mk (p.data.takeWhile (fun c => c ≠ '='))) else p

/-- `extract_param_name` (lines 344-376), full transliteration.  The dead
reversed-string regex branch of the source (`m2`, which only executes
`pass`) has no effect and is omitted from the control flow it never
influenced. -/
def extract_param_name (param : String) : Option String :=
  let p1 := removeDefault param
  let p2 := String.mk (stripBracketAttrs p1.data)
  let p3 := String.mk (stripAttributeCalls p2.data)
  match searchFptr p3.data with
  | some nm => some nm
  | none =>
    let t1 := pyReplace p3 ("&&") (" ")
    let t2 := pyReplace t1 ("&") (" ")
    let t3 := pyReplace t2 ("*") (" ")
    let t4 := pyReplace t3 ("[") (" ")
    let tmp := pyReplace t4 ("]") (" ")
    let tokens := pySplitWs tmp
    match tokens.getLast? with
    | some cand =>
      if isIdentString cand then some cand
      else (findIdents p3.data).getLast?
    | none => (findIdents p3.data).getLast?

/-! ## `_parse_tags` (lines 136-147) -/

/-- Python `s.startswith(pre)`. -/
def pyStartsWith (s pre : String) : Bool := pre.data.isPrefixOf s.data

def parse_tags (tag_str : String) : List String :=
  if tag_str = "" then []
  else
    (pySplitOnChar '|' tag_str).foldl (fun tags part =>
      (pySplitOnChar ',' part).foldl (fun tags subpart =>
        let cleaned := pyStrip subpart
        if cleaned ≠ "" && !(tags.contains cleaned) then tags ++ [cleaned] else tags)
        tags) []

/-! ## `_parse_qualifiers_from_tags` (lines 178-233) -/

structure Qualifiers where
  is_pure_function : Bool := false
  is_virtual : Bool := false
  is_inline : Bool := false
  is_deprecated : Bool := false
  is_const : Bool := false
  is_noexcept : Bool := false
  is_override : Bool := false
  is_final : Bool := false
  is_static : Bool := false
  access_modifier : String := "Public"
  other_qualifiers : List String := []
deriving Repr, DecidableEq

/-- The backward scan over the lines preceding the method (lines 204-231):
per (reversed) line, skip blank/comment lines, accumulate keyword-derived
qualifier flags, and stop at the first line containing both `(` and `)`. -/
def scanQualLines : List String → Qualifiers → Qualifiers
  | [], q => q
  | l :: ls, q =>
    let line := pyStrip l
    if line = "" || pyStartsWith line ("//") || pyStartsWith line ("/*") then
      scanQualLines ls q
    else
      let q := { q with
        is_const := q.is_const || strContains (" " ++ line) (" const"),
        is_noexcept := q.is_noexcept || strContains line ("noexcept"),
        is_override := q.is_override || strContains line ("override"),
        is_final := q.is_final || strContains line ("final"),
        is_virtual := q.is_virtual || strContains line ("virtual"),
        is_inline := q.is_inline || strContains line ("inline"),
        is_static := q.is_static || strContains line ("static") }
      let q :=
        if strContains line ("explicit") then
          { q with other_qualifiers := q.other_qualifiers ++ [("explicit")] }
        else q
      if line.data.contains '(' && line.data.contains ')' then q
      else scanQualLines ls q

def parse_qualifiers_from_tags (tag_str text : String) (method_start : Nat) : Qualifiers :=
  let tags := parse_tags tag_str
  let q0 : Qualifiers := {
    is_pure_function := tags.contains ("PureFunction"),
    is_deprecated := tags.contains ("Deprecated") }
  let q1 := tags.foldl (fun q tag =>
    if tag = "Public" || tag = "Protected" || tag = "Private" || tag = "Friend" then
      { q with access_modifier := tag }
    else if tag = "Explicit" || tag = "Friend" then
      { q with other_qualifiers := q.other_qualifiers ++ [pyLower tag] }
    else q) q0
  scanQualLines (pySplitOnChar '\n' (String.mk (text.data.take method_start))).reverse q1

/-- The emitter's business-tag filter (lines 619 and 683): structural
qualifier tags are removed before emission. -/
def filterStructuralTags (tags : List String) : List String :=
  tags.filter (fun t =>
    !((["Static", "Virtual", "Const", "Noexcept", "Override", "Final", "Inline"] :
        List String).contains t))

/-! ## `CLASS_RE`, `_extract_class_text`, `_strip_line_comments`,
`RPC_FACTORY_RE` and `parse_file` (lines 16-90)

`CLASS_RE` is the alternation
`\bHCLASS\s*\(([^)]*)\)\s*class\s+(\w+)` (annotation before the class) or
`class\s+(\w+)[^{]*\{[^}]*HCLASS\s*\(([^)]*)\)` (annotation inside the
body).  Both branches are embedded as deterministic scanners; the only
backtracking point of the second branch (`[^}]*` before `HCLASS`) is
resolved greedily, i.e. the last feasible start position wins, exactly as
the regex engine does. -/

/-- Branch 1 of `CLASS_RE` anchored at the head; `prevWord` tells whether
the previous character was a word character (for `\b`).  Returns raw
groups 1 and 2 and the unconsumed remainder. -/
def matchClassA (prevWord : Bool) (cs : List Char) : Option (String × String × List Char) :=
  if prevWord then none
  else
    match litL ("HCLASS".data) cs with
    | none => none
    | some r1 =>
      match skipWsL r1 with
      | '(' :: r2 =>
        match r2.drop ((r2.takeWhile (fun c => c ≠ ')')).length) with
        | ')' :: r3 =>
          match litL ("class".data) (skipWsL r3) with
          | none => none
          | some r4 =>
            match r4 with
            | c :: _ =>
              if c.isWhitespace then
                let r5 := skipWsL r4
                match r5.takeWhile isWordChar with
                | [] => none
                | g2 => some (String.mk (r2.takeWhile (fun c => c ≠ ')')),
                              String.mk g2, r5.drop g2.length)
              else none
            | [] => none
        | _ => none
      | _ => none

/-- The `HCLASS\s*\(([^)]*)\)` suffix of branch 2 of `CLASS_RE`. -/
def matchHClassParen (l : List Char) : Option (String × List Char) :=
  match litL ("HCLASS".data) l with
  | none => none
  | some r1 =>
    match skipWsL r1 with
    | '(' :: r2 =>
      match r2.drop ((r2.takeWhile (fun c => c ≠ ')')).length) with
      | ')' :: r3 => some (String.mk (r2.takeWhile (fun c => c ≠ ')')), r3)
      | _ => none
    | _ => none

/-- Branch 2 of `CLASS_RE` anchored at the head: returns raw groups 3 and 4
and the remainder. -/
def matchClassB (cs : List Char) : Option (String × String × List Char) :=
  match litL ("class".data) cs with
  | none => none
  | some r1 =>
    match r1 with
    | c :: _ =>
      if c.isWhitespace then
        let r2 := skipWsL r1
        match r2.takeWhile isWordChar with
        | [] => none
        | g3 =>
          let r3 := (r2.drop g3.length)
          match r3.drop ((r3.takeWhile (fun c => c ≠ '\x7b')).length) with
          | '\x7b' :: r4 =>
            (List.range ((r4.takeWhile (fun c => c ≠ '\x7d')).length + 1)).reverse.findSome?
              (fun k =>
                match matchHClassParen (r4.drop k) with
                | some (g4, rest) => some (String.mk g3, g4, rest)
                | none => none)
          | _ => none
      else none
    | [] => none

inductive ClassMatchData where
  | viaA (tags name : String)
  | viaB (name tags : String)
deriving Repr, DecidableEq

structure ClassMatch where
  pos : Nat
  data : ClassMatchData
deriving Repr, DecidableEq

/-- `re.finditer(CLASS_RE, text)`: scan left to right, at each position try
branch 1 then branch 2, and continue after the end of a match. -/
def classFindGo : Nat → List Char → Nat → Bool → List ClassMatch
  | 0, _, _, _ => []
  | _, [], _, _ => []
  | fuel + 1, c :: cs, pos, prevWord =>
    match matchClassA prevWord (c :: cs) with
    | some (g1, g2, rest) =>
      { pos := pos, data := .viaA g1 g2 } ::
        classFindGo fuel rest (pos + ((c :: cs).length - rest.length)) true
    | none =>
      match matchClassB (c :: cs) with
      | some (g3, g4, rest) =>
        { pos := pos, data := .viaB g3 g4 } ::
          classFindGo fuel rest (pos + ((c :: cs).length - rest.length)) false
      | none => classFindGo fuel cs (pos + 1) (isWordChar c)

def classMatchesOf (text : String) : List ClassMatch :=
  classFindGo text.data.length text.data 0 false

/-- Python `'\n'.join`. -/
def joinNl : List String → String
  | [] => ""
  | [x] => x
  | x :: xs => x ++ "\n" ++ joinNl xs

def countChar (s : String) (c : Char) : Int := Int.ofNat ((s.data.filter (· = c)).length)

/-- The line loop of `_extract_class_text` (lines 32-53): every visited line
is appended; the first line containing `class <Name>` and `{` (re)arms the
brace counter; once armed, reaching depth `<= 0` on a line with `}` stops
only if the next line (stripped) is blank, a `//` comment, `HCLASS` or
`class` — otherwise consumption continues. -/
def extractClassGo (class_name : String) :
    List String → Bool → Bool → Int → List String → List String
  | [], _, _, _, acc => acc
  | line :: rest, found, inc, bc, acc =>
    let acc := acc ++ [line]
    if strContains line ("class " ++ class_name) && line.data.contains '\x7b' then
      extractClassGo class_name rest true true
        (countChar line '\x7b' - countChar line '\x7d') acc
    else if found && inc then
      let bc2 := bc + countChar line '\x7b' - countChar line '\x7d'
      if bc2 ≤ 0 && line.data.contains '\x7d' then
        match rest with
        | next :: _ =>
          let nl := pyStrip next
          if pyStartsWith nl ("//") || pyStartsWith nl ("HCLASS") ||
              pyStartsWith nl ("class") || nl = "" then acc
          else extractClassGo class_name rest found inc bc2 acc
        | [] => acc
      else extractClassGo class_name rest found inc bc2 acc
    else extractClassGo class_name rest found inc bc acc

def extract_class_text (text : String) (start_pos : Nat) (class_name : String) : String :=
  joinNl (extractClassGo class_name
    (pySplitOnChar '\n' (String.mk (text.data.drop start_pos))) false false 0 [])

/-- `line.split('//', 1)[0]`. -/
def cutLineComment : List Char → List Char
  | [] => []
  | '/' :: '/' :: _ => []
  | c :: cs => c :: cutLineComment cs

/-- Remainder after the first `*/`, if any (the lazy `.*?` of the block
comment pattern stops at the first closer). -/
def findCloseBlock : List Char → Option (List Char)
  | [] => none
  | '*' :: '/' :: rest => some rest
  | _ :: cs => findCloseBlock cs

/-- `re.sub(r"/\*.*?\*/", "", line)` (fuel-structural). -/
def stripBlockCommentsGo : Nat → List Char → List Char
  | _, [] => []
  | 0, l => l
  | fuel + 1, '/' :: '*' :: rest =>
    match findCloseBlock rest with
    | some after => stripBlockCommentsGo fuel after
    | none => '/' :: '*' :: rest
  | fuel + 1, c :: cs => c :: stripBlockCommentsGo fuel cs

/-- `_strip_line_comments` (lines 57-68). -/
def strip_line_comments (text : String) : String :=
  joinNl ((pySplitOnChar '\n' text).map (fun line =>
    let l1 := cutLineComment line.data
    String.mk (stripBlockCommentsGo l1.length l1)))

/-- `RPC_FACTORY_RE.search`: `\bHRPC_FACTORY\s*\(\s*\)`. -/
def rpcFactoryAt (prevWord : Bool) (cs : List Char) : Bool :=
  if prevWord then false
  else
    match litL ("HRPC_FACTORY".data) cs with
    | none => false
    | some r1 =>
      match skipWsL r1 with
      | '(' :: r2 =>
        match skipWsL r2 with
        | ')' :: _ => true
        | _ => false
      | _ => false

def hasRpcFactoryGo : List Char → Bool → Bool
  | [], _ => false
  | c :: cs, prevWord => rpcFactoryAt prevWord (c :: cs) || hasRpcFactoryGo cs (isWordChar c)

def has_rpc_factory_in (s : String) : Bool := hasRpcFactoryGo s.data false

/-- `parse_file` (lines 70-90) on a file's text: one tuple
`(class_name, class_tags, class_text, has_rpc_factory)` per `CLASS_RE`
match whose relevant raw groups are non-empty (Python truthiness). -/
def parse_file (text : String) : List (String × String × String × Bool) :=
  (classMatchesOf text).filterMap (fun m =>
    match m.data with
    | .viaA g1 g2 =>
      if g1 ≠ "" && g2 ≠ "" then
        let class_name := pyStrip g2
        let class_text := extract_class_text text m.pos class_name
        some (class_name, pyStrip g1, class_text,
          has_rpc_factory_in (strip_line_comments class_text))
      else none
    | .viaB g3 g4 =>
      if g3 ≠ "" && g4 ≠ "" then
        let class_name := pyStrip g3
        let class_text := extract_class_text text m.pos class_name
        some (class_name, pyStrip g4, class_text,
          has_rpc_factory_in (strip_line_comments class_text))
      else none)

/-! ## SHA-256 (for `_compute_class_hash`, lines 543-566)

Straightforward FIPS 180-4 implementation over byte lists, with 32-bit
words represented as `Nat` reduced modulo `2^32`. -/

def w32 (n : Nat) : Nat := n % 4294967296

def rotr32 (n x : Nat) : Nat := w32 ((x >>> n) ||| (x <<< (32 - n)))

def sha256K : List Nat :=
  [1116352408, 1899447441, 3049323471, 3921009573, 961987163, 1508970993, 2453635748, 2870763221] ++
  [3624381080, 310598401, 607225278, 1426881987, 1925078388, 2162078206, 2614888103, 3248222580] ++
  [3835390401, 4022224774, 264347078, 604807628, 770255983, 1249150122, 1555081692, 1996064986] ++
  [2554220882, 2821834349, 2952996808, 3210313671, 3336571891, 3584528711, 113926993, 338241895] ++
  [666307205, 773529912, 1294757372, 1396182291, 1695183700, 1986661051, 2177026350, 2456956037] ++
  [2730485921, 2820302411, 3259730800, 3345764771, 3516065817, 3600352804, 4094571909, 275423344] ++
  [430227734, 506948616, 659060556, 883997877, 958139571, 1322822218, 1537002063, 1747873779] ++
  [1955562222, 2024104815, 2227730452, 2361852424, 2428436474, 2756734187, 3204031479, 3329325298]

def be64 (n : Nat) : List Nat :=
  (List.range 8).map (fun i => (n >>> ((7 - i) * 8)) % 256)

def sha256PadBytes (msg : List Nat) : List Nat :=
  let len := msg.length
  let k := (119 - len % 64) % 64
  msg ++ [0x80] ++ List.replicate k 0 ++ be64 (len * 8)

def bytesToWords : List Nat → List Nat
  | a :: b :: c :: d :: rest => (a <<< 24 ||| b <<< 16 ||| c <<< 8 ||| d) :: bytesToWords rest
  | _ => []

def chunk16Go : Nat → List Nat → List (List Nat)
  | _, [] => []
  | 0, _ => []
  | fuel + 1, l => l.take 16 :: chunk16Go fuel (l.drop 16)

structure H8 where
  a : Nat
  b : Nat
  c : Nat
  d : Nat
  e : Nat
  f : Nat
  g : Nat
  hh : Nat
deriving Repr, DecidableEq

def extendWGo : Nat → List Nat → List Nat
  | 0, w => w
  | fuel + 1, w =>
    let i := w.length
    let w15 := w.getD (i - 15) 0
    let w2 := w.getD (i - 2) 0
    let w16 := w.getD (i - 16) 0
    let w7 := w.getD (i - 7) 0
    let s0 := (rotr32 7 w15) ^^^ (rotr32 18 w15) ^^^ (w15 >>> 3)
    let s1 := (rotr32 17 w2) ^^^ (rotr32 19 w2) ^^^ (w2 >>> 10)
    extendWGo fuel (w ++ [w32 (w16 + s0 + w7 + s1)])

def sha256Round (st : H8) (kw : Nat × Nat) : H8 :=
  let s1 := (rotr32 6 st.e) ^^^ (rotr32 11 st.e) ^^^ (rotr32 25 st.e)
  let ch := (st.e &&& st.f) ^^^ ((st.e ^^^ 0xffffffff) &&& st.g)
  let temp1 := w32 (st.hh + s1 + ch + kw.1 + kw.2)
  let s0 := (rotr32 2 st.a) ^^^ (rotr32 13 st.a) ^^^ (rotr32 22 st.a)
  let maj := (st.a &&& st.b) ^^^ (st.a &&& st.c) ^^^ (st.b &&& st.c)
  let temp2 := w32 (s0 + maj)
  ⟨w32 (temp1 + temp2), st.a, st.b, st.c, w32 (st.d + temp1), st.e, st.f, st.g⟩

def sha256Block (hs : H8) (block : List Nat) : H8 :=
  let w := extendWGo 48 block
  let st := (sha256K.zip w).foldl sha256Round hs
  ⟨w32 (hs.a + st.a), w32 (hs.b + st.b), w32 (hs.c + st.c), w32 (hs.d + st.d),
   w32 (hs.e + st.e), w32 (hs.f + st.f), w32 (hs.g + st.g), w32 (hs.hh + st.hh)⟩

def hexDigit (n : Nat) : Char :=
  if n < 10 then Char.ofNat (48 + n) else Char.ofNat (87 + n)

def hex32 (n : Nat) : List Char :=
  (List.range 8).map (fun i => hexDigit ((n >>> ((7 - i) * 4)) % 16))

def sha256HexBytes (msg : List Nat) : String :=
  let padded := sha256PadBytes msg
  let blocks := chunk16Go padded.length (bytesToWords padded)
  let h0 : H8 := ⟨0x6a09e667, 0xbb67ae85, 0x3c6ef372, 0xa54ff53a,
                  0x510e527f, 0x9b05688c, 0x1f83d9ab, 0x5be0cd19⟩
  let hs := blocks.foldl sha256Block h0
  String.mk (hex32 hs.a ++ hex32 hs.b ++ hex32 hs.c ++ hex32 hs.d ++
             hex32 hs.e ++ hex32 hs.f ++ hex32 hs.g ++ hex32 hs.hh)

/-- UTF-8 encoding of one scalar value as byte values. -/
def utf8EncodeCharNat (c : Char) : List Nat :=
  let n := c.toNat
  if n < 0x80 then [n]
  else if n < 0x800 then [0xc0 + n / 64, 0x80 + n % 64]
  else if n < 0x10000 then [0xe0 + n / 4096, 0x80 + (n / 64) % 64, 0x80 + n % 64]
  else [0xf0 + n / 262144, 0x80 + (n / 4096) % 64, 0x80 + (n / 64) % 64, 0x80 + n % 64]

def utf8Bytes (s : String) : List Nat := (s.data.map utf8EncodeCharNat).flatten

/-! ## JSON serialization (`json.dumps(..., ensure_ascii=False)` with the
default separators `(', ', ': ')`; `sort_keys=True` is realised by writing
each object's keys in sorted order). -/

def commaJoin : List String → String
  | [] => ""
  | [x] => x
  | x :: xs => x ++ ", " ++ commaJoin xs

def jsonEscapeChar (c : Char) : List Char :=
  if c = '"' then ['\\', '"']
  else if c = '\\' then ['\\', '\\']
  else if c = '\n' then ['\\', 'n']
  else if c = '\r' then ['\\', 'r']
  else if c = '\t' then ['\\', 't']
  else if c = '\x08' then ['\\', 'b']
  else if c = '\x0c' then ['\\', 'f']
  else if c.toNat < 0x20 then
    '\\' :: 'u' :: '0' :: '0' :: [hexDigit (c.toNat / 16), hexDigit (c.toNat % 16)]
  else [c]

def jsonStr (s : String) : String :=
  "\"" ++ String.mk ((s.data.map jsonEscapeChar).flatten) ++ "\""

def jsonArr (items : List String) : String := "[" ++ commaJoin items ++ "]"

def jsonBool (b : Bool) : String := if b then "true" else "false"

def jsonObj (pairs : List (String × String)) : String :=
  "\x7b" ++ commaJoin (pairs.map (fun p => jsonStr p.1 ++ ": " ++ p.2)) ++ "\x7d"

/-! ## The per-class metadata record

One entry of `all_classes` (main, line 413): the tuple
`(class_name, tags, props, meths, sfuncs, has_rpc_factory, header_mode,
param_map, return_map, tags_map, comment_map, qualifier_map, rel_dir)`.
The Python dicts keyed by `(tag, method)` are association lists preserving
insertion order, as Python dicts do. -/

structure ClassRecord where
  name : String
  tags : List String
  props : List (String × String)
  meths : List (String × String)
  sfuncs : List String
  has_rpc_factory : Bool
  header_mode : Bool
  param_map : List ((String × String) × List String)
  return_map : List ((String × String) × String)
  tags_map : List ((String × String) × List String)
  comment_map : List ((String × String) × String)
  qualifier_map : List ((String × String) × Qualifiers)
  rel_dir : String
deriving Repr, DecidableEq

/-- Python `dict.get(k)`. -/
def mapGet {α : Type} (m : List ((String × String) × α)) (k : String × String) : Option α :=
  (m.find? (fun e => e.1 = k)).map (fun e => e.2)

/-! ## `_compute_class_hash` (lines 543-566)

`json.dumps(payload, ensure_ascii=False, sort_keys=True)` sorts only the
keys of each JSON object; list-valued entries (`tags`, `props`, `meths`,
`params`, ...) are serialized in their stored order.  The fixed key sets
below are written in their sorted order. -/

def qualifiersJson (q : Qualifiers) : String :=
  jsonObj [(("access_modifier"), jsonStr q.access_modifier),
           (("is_const"), jsonBool q.is_const),
           (("is_deprecated"), jsonBool q.is_deprecated),
           (("is_final"), jsonBool q.is_final),
           (("is_inline"), jsonBool q.is_inline),
           (("is_noexcept"), jsonBool q.is_noexcept),
           (("is_override"), jsonBool q.is_override),
           (("is_pure_function"), jsonBool q.is_pure_function),
           (("is_static"), jsonBool q.is_static),
           (("is_virtual"), jsonBool q.is_virtual),
           (("other_qualifiers"), jsonArr (q.other_qualifiers.map jsonStr))]

def methJson (r : ClassRecord) (tm : String × String) : String :=
  jsonObj [(("comment"), jsonStr ((mapGet r.comment_map tm).getD "")),
           (("name"), jsonStr tm.2),
           (("params"), jsonArr (((mapGet r.param_map tm).getD []).map jsonStr)),
           (("qualifiers"),
             match mapGet r.qualifier_map tm with
             | some q => qualifiersJson q
             | none => "\x7b\x7d"),
           (("ret"), jsonStr ((mapGet r.return_map tm).getD "")),
           (("tag"), jsonStr tm.1),
           (("tags"), jsonArr (((mapGet r.tags_map tm).getD [tm.1]).map jsonStr))]

def classPayloadJson (r : ClassRecord) : String :=
  jsonObj [(("header_mode"), jsonBool r.header_mode),
           (("meths"), jsonArr (r.meths.map (fun tm => methJson r tm))),
           (("name"), jsonStr r.name),
           (("props"), jsonArr (r.props.map (fun p => jsonArr [jsonStr p.1, jsonStr p.2]))),
           (("rel_dir"), jsonStr r.rel_dir),
           (("rpc_factory"), jsonBool r.has_rpc_factory),
           (("sfuncs"), jsonArr (r.sfuncs.map jsonStr)),
           (("tags"), jsonArr (r.tags.map jsonStr))]

def compute_class_hash (r : ClassRecord) : String :=
  sha256HexBytes (utf8Bytes (classPayloadJson r))

/-! ## File-system model

Paths are component lists (`os.path.join` appends components; `os.walk`
of a directory visits exactly the files whose path has the directory as a
proper prefix).  The file system is an association list from paths to file
contents. -/

abbrev FPath := List String

abbrev FS := List (FPath × String)

def lookupFS (fs : FS) (p : FPath) : Option String :=
  (fs.find? (fun e => e.1 = p)).map (fun e => e.2)

def setFS (p : FPath) (c : String) (fs : FS) : FS :=
  fs.filter (fun e => ¬(e.1 = p)) ++ [(p, c)]

/-- `_write_if_changed` (lines 569-579): read the existing content (a
missing file reads as an exception, which the source swallows); identical
content short-circuits with no write, anything else is (re)written.
Returns the new file system and whether a write happened. -/
def write_if_changed (p : FPath) (c : String) (fs : FS) : FS × Bool :=
  match lookupFS fs p with
  | some old => if old = c then (fs, false) else (setFS p c fs, true)
  | none => (setFS p c fs, true)

def pyEndsWith (s suf : String) : Bool := suf.data.isSuffixOf s.data

/-- `f.endswith(('_registration.cpp', '_services.cpp'))` (line 700). -/
def isFragmentName (f : String) : Bool :=
  pyEndsWith f ("_registration.cpp") || pyEndsWith f ("_services.cpp")

def underDir (dir p : FPath) : Bool := dir.isPrefixOf p && decide (dir.length < p.length)

def lastComponent (p : FPath) : String := p.getLastD ("")

/-- The stale-file reaper's deletion test (lines 697-707): a file below the
classes directory whose name matches the generated-fragment naming
convention and whose full path is not in the alive set. -/
def reapDelete (dir : FPath) (alive : List FPath) (p : FPath) : Bool :=
  underDir dir p && isFragmentName (lastComponent p) && !(alive.contains p)

def reapFS (dir : FPath) (alive : List FPath) (fs : FS) : FS :=
  fs.filter (fun e => !(reapDelete dir alive e.1))

/-- One file-system operation of the generator run: a conditional write
(`_write_if_changed`), an unconditional write (the cache `json.dump`), or
the stale-file reap. -/
inductive FsOp where
  | wic (p : FPath) (content : String)
  | put (p : FPath) (content : String)
  | reap (dir : FPath) (alive : List FPath)
deriving Repr, DecidableEq

def execOp (fs : FS) : FsOp → FS × List Bool
  | .wic p c =>
    match write_if_changed p c fs with
    | (fs2, b) => (fs2, [b])
  | .put p c => (setFS p c fs, [])
  | .reap dir alive => (reapFS dir alive fs, [])

/-- Run a list of operations, collecting the `_write_if_changed` flags. -/
def execOps (fs : FS) : List FsOp → FS × List Bool
  | [] => (fs, [])
  | op :: ops =>
    match execOp fs op with
    | (fs1, flags1) =>
      match execOps fs1 ops with
      | (fs2, flags2) => (fs2, flags1 ++ flags2)

/-! ## The code emitters (lines 444-825)

Each `generate_*` function of the source builds a list of lines and joins
them with `\n`; the transliterations below build the same strings. -/

def insertSorted (x : String) : List String → List String
  | [] => [x]
  | y :: ys => if x ≤ y then x :: y :: ys else y :: insertSorted x ys

/-- Python `sorted` on strings (code-point order). -/
def sortStrings (l : List String) : List String := l.foldr insertSorted []

def quoteInc (inc : String) : String := "#include \"" ++ inc ++ "\""

/-- `generate_header_file` content (lines 444-483); `includes` is a Python
set, realised as first-occurrence deduplication before sorting. -/
def generate_header_content (includes : List String) : String :=
  joinNl
    ([("#pragma once"), (""),
      ("#include \"Shared/Reflection/ReflectionCore.h\""),
      ("#include \"Shared/RPC/RpcReflection.h\""),
      ("#include \"Shared/RPC/IRpcServer.h\""),
      ("#include \"Shared/Common/LogCategories.h\""),
      ("#include <cstddef>"),
      ("#include <fmt/format.h>"),
      ("#include <atomic>"), (""),
      ("using namespace Helianthus::Reflection;"), (""),
      ("// 全局标志，确保静态初始化只在程序启动时执行一次"),
      ("extern std::atomic<bool> g_ReflectionInitialized;"), (""),
      ("// 包含所有反射类的头文件")]
    ++ (sortStrings includes.eraseDups).map quoteInc
    ++ [(""), ("// 声明所有注册函数"),
        ("namespace Helianthus \x7b namespace Reflection \x7b"),
        ("    void RegisterAllClasses();"),
        ("    void RegisterAllRpcServices();"),
        ("\x7d\x7d"), (""),
        ("// 用于强制链接初始化单元的全局符号声明"),
        ("extern int g_ReflectionAutoInit;"), (""),
        ("// 声明自动挂载函数"),
        ("namespace Helianthus \x7b namespace RPC \x7b"),
        ("    void RegisterReflectedServices(IRpcServer& Server);"),
        ("    void RegisterReflectedServices(IRpcServer& Server, const std::vector<std::string>& RequiredTags);"),
        ("    extern int g_ReflectionAutoInit;"),
        ("\x7d\x7d")])

/-- The `Tests/` filter applied by all three whole-tree aggregators
(lines 495, 525 and 718): `not item[-1].startswith('Tests/')`. -/
def aggregatorClasses (records : List ClassRecord) : List ClassRecord :=
  records.filter (fun r => !(pyStartsWith r.rel_dir ("Tests/")))

/-- `generate_registrations_file` content (lines 485-516). -/
def generate_registrations_lines (records : List ClassRecord) : List String :=
  ([("#include \"reflection_gen.h\""), (""),
      ("// 全局标志定义"),
      ("std::atomic<bool> g_ReflectionInitialized\x7bfalse\x7d;"), (""),
      ("namespace Helianthus \x7b namespace Reflection \x7b")]
    ++ (aggregatorClasses records).map (fun r => "void RegisterClass_" ++ r.name ++ "();")
    ++ [(""), ("void RegisterAllClasses()"), ("\x7b"),
        ("    // 检查是否已经初始化，避免在程序退出时重复执行"),
        ("    if (g_ReflectionInitialized.load(std::memory_order_acquire)) \x7b"),
        ("        return;"),
        ("    \x7d"),
        ("    g_ReflectionInitialized.store(true, std::memory_order_release);"),
        ("")]
    ++ (aggregatorClasses records).map (fun r => "    RegisterClass_" ++ r.name ++ "();")
    ++ [("\x7d"), (""), ("\x7d\x7d // namespace Helianthus::Reflection")])

def generate_registrations_content (records : List ClassRecord) : String :=
  joinNl (generate_registrations_lines records)

/-- `generate_services_file` content (lines 518-541). -/
def generate_services_lines (records : List ClassRecord) : List String :=
  ([("#include \"reflection_gen.h\""), (""),
      ("namespace Helianthus \x7b namespace Reflection \x7b")]
    ++ (aggregatorClasses records).map (fun r => "void RegisterRpc_" ++ r.name ++ "();")
    ++ [(""), ("void RegisterAllRpcServices()"), ("\x7b")]
    ++ (aggregatorClasses records).map (fun r => "    RegisterRpc_" ++ r.name ++ "();")
    ++ [("\x7d"), (""), ("\x7d\x7d // namespace Helianthus::Reflection")])

def generate_services_content (records : List ClassRecord) : String :=
  joinNl (generate_services_lines records)

/-- `generate_classes_compilation_file` content (lines 713-724). -/
def generate_classes_compilation_lines (records : List ClassRecord) : List String :=
  ([("#include \"reflection_gen.h\""),
      ("// 聚合按类生成的CPP，确保被编译")]
    ++ (aggregatorClasses records).flatMap (fun r =>
        let base :=
          if r.rel_dir ≠ "" then "classes/" ++ r.rel_dir ++ "/" ++ r.name
          else "classes/" ++ r.name
        [("#include \"" ++ base ++ "_registration.cpp\""),
         ("#include \"" ++ base ++ "_services.cpp\"")]))

def generate_classes_compilation_content (records : List ClassRecord) : String :=
  joinNl (generate_classes_compilation_lines records)

/-- `generate_auto_mount_file` content (lines 726-806). -/
def generate_auto_mount_content : String :=
  joinNl
    [("#include \"reflection_gen.h\""), (""),
     ("namespace Helianthus \x7b namespace RPC \x7b"),
     ("// 引用全局符号以确保链接器不会丢弃初始化单元"),
     ("extern int g_ReflectionAutoInit;"),
     ("static int* volatile __force_link_init_ref = &g_ReflectionAutoInit;"),
     (""), (""),
     ("void RegisterReflectedServices(IRpcServer& Server) \x7b"),
     ("    // 检查是否正在关闭，避免在程序退出时记录日志"),
     ("    if (Helianthus::Common::Logger::IsShuttingDown()) \x7b"),
     ("        return;"),
     ("    \x7d"),
     ("    auto Names = RpcServiceRegistry::Get().ListServices();"),
     ("    std::cout << \"[DEBUG] RegisterReflectedServices called with \" << Names.size() << \" services\" << std::endl;"),
     ("    std::cout << \"[RPC] Auto-mounting \" << Names.size() << \" reflected services\" << std::endl;"),
     ("    for (const auto& Name : Names) \x7b"),
     ("        auto Service = RpcServiceRegistry::Get().Create(Name);"),
     ("        if (Service) \x7b"),
     ("            (void)Server.RegisterService(Service);"),
     ("            auto Meta = RpcServiceRegistry::Get().GetMeta(Name);"),
     ("            std::cout << \"[RPC] Mounted service: \" << Name << \" (version: \" << Meta.Version << \", methods: \" << Meta.Methods.size() << \")\" << std::endl;"),
     ("            for (const auto& Method : Meta.Methods) \x7b"),
     ("                std::cout << \"[RPC]   - Method: \" << Method.MethodName << \" (tags: \" << fmt::format(\"\x7b\x7d\", fmt::join(Method.Tags, \", \")) << \")\" << std::endl;"),
     ("            \x7d"),
     ("        \x7d else \x7b"),
     ("            std::cout << \"[RPC] Failed to create service: \" << Name << std::endl;"),
     ("        \x7d"),
     ("    \x7d"),
     ("\x7d"),
     (""),
     ("void RegisterReflectedServices(IRpcServer& Server, const std::vector<std::string>& RequiredTags) \x7b"),
     ("    // 检查是否正在关闭，避免在程序退出时记录日志"),
     ("    if (Helianthus::Common::Logger::IsShuttingDown()) \x7b"),
     ("        return;"),
     ("    \x7d"),
     ("    auto Names = RpcServiceRegistry::Get().ListServices();"),
     ("    std::cout << \"[RPC] Auto-mounting reflected services with tags: \" << fmt::format(\"\x7b\x7d\", fmt::join(RequiredTags, \", \")) << std::endl;"),
     ("    int MountedCount = 0;"),
     ("    for (const auto& Name : Names) \x7b"),
     ("        auto Meta = RpcServiceRegistry::Get().GetMeta(Name);"),
     ("        bool HasRequiredTag = false;"),
     ("        std::vector<std::string> MatchingMethods;"),
     ("        for (const auto& Method : Meta.Methods) \x7b"),
     ("            bool MethodMatches = false;"),
     ("            for (const auto& Tag : Method.Tags) \x7b"),
     ("                for (const auto& Required : RequiredTags) \x7b"),
     ("                    if (Tag == Required) \x7b"),
     ("                        MethodMatches = true;"),
     ("                        break;"),
     ("                    \x7d"),
     ("                \x7d"),
     ("                if (MethodMatches) break;"),
     ("            \x7d"),
     ("            if (MethodMatches) \x7b"),
     ("                HasRequiredTag = true;"),
     ("                MatchingMethods.push_back(Method.MethodName);"),
     ("            \x7d"),
     ("        \x7d"),
     ("        if (HasRequiredTag) \x7b"),
     ("            auto Service = RpcServiceRegistry::Get().Create(Name);"),
     ("            if (Service) \x7b"),
     ("                (void)Server.RegisterService(Service);"),
     ("                MountedCount++;"),
     ("                std::cout << \"[RPC] Mounted service: \" << Name << \" (matching methods: \" << fmt::format(\"\x7b\x7d\", fmt::join(MatchingMethods, \", \")) << \")\" << std::endl;"),
     ("            \x7d else \x7b"),
     ("                std::cout << \"[RPC] Failed to create service: \" << Name << std::endl;"),
     ("            \x7d"),
     ("        \x7d else \x7b"),
     ("            std::cout << \"[RPC] Skipped service: \" << Name << \" (no matching tags)\" << std::endl;"),
     ("        \x7d"),
     ("    \x7d"),
     ("    std::cout << \"[RPC] Auto-mount completed: \" << MountedCount << \" services mounted\" << std::endl;"),
     ("\x7d"),
     (""),
     ("\x7d\x7d // namespace Helianthus::RPC")]

/-- `generate_init_file` content (lines 808-825). -/
def generate_init_content : String :=
  joinNl
    [("#include \"reflection_gen.h\""), (""),
     ("// 定义全局符号以强制链接该翻译单元（放在 Helianthus::RPC 命名空间）"),
     ("namespace Helianthus \x7b namespace RPC \x7b"),
     ("int g_ReflectionAutoInit = 0;"),
     ("\x7d\x7d"), (""),
     ("// 静态初始化函数，确保所有反射代码在程序启动时执行"),
     ("static int __reflection_init = []() -> int \x7b"),
     ("    Helianthus::Reflection::RegisterAllClasses();"),
     ("    Helianthus::Reflection::RegisterAllRpcServices();"),
     ("    return 0;"),
     ("\x7d();")]

/-! ## Per-class fragment emission (`generate_per_class_files`, lines 582-711) -/

def squoteStr : String := Char.toString '\''

/-- `tag.replace('"', '').replace("'", '').strip()` (line 599). -/
def clean_tag_of (tag : String) : String :=
  pyStrip (pyReplace (pyReplace tag ("\"") ("")) squoteStr (""))

def boolCpp (b : Bool) : String := if b then "true" else "false"

/-- One emitted `RegisterProperty` line (lines 602-605). -/
def propLine (header_mode : Bool) (class_name : String) (p : String × String) : String :=
  let clean := clean_tag_of p.1
  if header_mode then
    "ClassRegistry::Get().RegisterProperty(\"" ++ class_name ++ "\", \"" ++ p.2 ++
      "\", \"" ++ clean ++ "\", offsetof(" ++ class_name ++ ", " ++ p.2 ++
      "), sizeof(((" ++ class_name ++ "*)0)->" ++ p.2 ++ "));"
  else
    "ClassRegistry::Get().RegisterProperty(\"" ++ class_name ++ "\", \"" ++ p.2 ++
      "\", \"" ++ clean ++ "\", 0, 0);"

/-- The property loop of the registration fragment (lines 598-605): a
property whose cleaned tag is empty or contains a space is skipped. -/
def propsLoop (header_mode : Bool) (class_name : String) :
    List (String × String) → List String
  | [] => []
  | p :: ps =>
    let clean := clean_tag_of p.1
    if clean.data.contains ' ' || clean = "" then propsLoop header_mode class_name ps
    else propLine header_mode class_name p :: propsLoop header_mode class_name ps

/-- The `raw_tags` fallback chain (lines 610-618 and 675-682): the exact
`tags_map` entry if present; otherwise the first entry with the same method
name and a non-empty tag list; otherwise `_parse_tags(tag)`. -/
def methodRawTags (r : ClassRecord) (tag method : String) : List String :=
  match mapGet r.tags_map (tag, method) with
  | some v => v
  | none =>
    match r.tags_map.find? (fun e => e.1.2 == method && !(e.2.isEmpty)) with
    | some e => e.2
    | none => parse_tags tag

def quoteLit (s : String) : String := "\"" ++ s ++ "\""

/-- One emitted `RegisterMethodEx` line (lines 606-641). -/
def methodExLine (r : ClassRecord) (tm : String × String) : String :=
  let params := (mapGet r.param_map tm).getD []
  let ret := (mapGet r.return_map tm).getD ""
  let method_tags := filterStructuralTags (methodRawTags r tm.1 tm.2)
  let comment := (mapGet r.comment_map tm).getD ""
  let q := (mapGet r.qualifier_map tm).getD {}
  let params_literal := commaJoin (params.map quoteLit)
  let tags_literal := commaJoin (method_tags.map quoteLit)
  let qualifiers_literal := commaJoin (q.other_qualifiers.map quoteLit)
  "ClassRegistry::Get().RegisterMethodEx(\"" ++ r.name ++ "\", \"" ++ tm.2 ++
    "\", \x7b" ++ tags_literal ++ "\x7d, \"" ++ ret ++ "\", \"" ++ q.access_modifier ++
    "\", \"" ++ comment ++ "\", " ++ boolCpp q.is_static ++ ", \x7b" ++ params_literal ++
    "\x7d, " ++ boolCpp q.is_pure_function ++ ", " ++ boolCpp q.is_const ++ ", " ++
    boolCpp q.is_noexcept ++ ", " ++ boolCpp q.is_virtual ++ ", " ++
    boolCpp q.is_override ++ ", " ++ boolCpp q.is_final ++ ", " ++
    boolCpp q.is_inline ++ ", " ++ boolCpp q.is_deprecated ++ ", \"" ++
    q.access_modifier ++ "\", \x7b" ++ qualifiers_literal ++ "\x7d);"

/-- The registration fragment for one class (lines 590-646). -/
def regFragmentLines (r : ClassRecord) : List String :=
  [("#include \"reflection_gen.h\""),
   ("namespace Helianthus \x7b namespace Reflection \x7b"),
   ("void RegisterClass_" ++ r.name ++ "() \x7b"),
   ("// " ++ r.name ++ " 类注册"),
   ("ClassRegistry::Get().RegisterClass(\"" ++ r.name ++ "\", \x7b\x7d, nullptr);")]
  ++ r.tags.map (fun t =>
      "ClassRegistry::Get().AddClassTag(\"" ++ r.name ++ "\", \"" ++ t ++ "\");")
  ++ propsLoop r.header_mode r.name r.props
  ++ r.meths.map (fun tm => methodExLine r tm)
  ++ r.sfuncs.map (fun f =>
      "ClassRegistry::Get().RegisterMethodEx(\"" ++ r.name ++ "\", \"" ++ f ++
        "\", \x7b\"Function\"\x7d, \"\", \"Public\", \"\", true, \x7b\x7d);")
  ++ [("\x7d"), ("\x7d\x7d")]

def regFragmentContent (r : ClassRecord) : String := joinNl (regFragmentLines r)

/-- One emitted RPC `RegisterMethod` line (line 685). -/
def svcMethodLine (r : ClassRecord) (tm : String × String) : String :=
  let tags_literal := commaJoin ((filterStructuralTags (methodRawTags r tm.1 tm.2)).map quoteLit)
  "Helianthus::RPC::RpcServiceRegistry::Get().RegisterMethod(\"" ++ r.name ++
    "\", Helianthus::RPC::RpcMethodMeta\x7b\"" ++ tm.2 ++
    "\", \"ReflectedRpc\", \"\", \"\", \x7b" ++ tags_literal ++ "\x7d, \"\", 100\x7d);"

/-- The method loop of the services fragment (lines 668-685): methods are
deduplicated by stripped name, first occurrence wins. -/
def svcMethLoop (r : ClassRecord) : List (String × String) → List String → List String
  | [], _ => []
  | tm :: rest, seen =>
    let key := pyStrip tm.2
    if seen.contains key then svcMethLoop r rest seen
    else svcMethodLine r tm :: svcMethLoop r rest (seen ++ [key])

/-- The services fragment for one class (lines 652-688); `skipEnv` is the
truthiness of `HELIANTHUS_REFLECTION_SKIP_FACTORY_AUTO_REGISTER`. -/
def svcFragmentLines (skipEnv : Bool) (r : ClassRecord) : List String :=
  [("#include \"reflection_gen.h\""),
   ("namespace Helianthus \x7b namespace Reflection \x7b"),
   ("void RegisterRpc_" ++ r.name ++ "() \x7b"),
   ("// " ++ r.name ++ " RPC服务注册")]
  ++ (if !(r.tags.contains ("NoAutoRegister")) && !skipEnv then
        [("if (!Helianthus::RPC::RpcServiceRegistry::Get().HasService(\"" ++ r.name ++ "\")) \x7b"),
         (if r.has_rpc_factory then
            "    Helianthus::RPC::RpcServiceRegistry::Get().RegisterService(\"" ++ r.name ++
              "\", \"1.0.0\", []()\x7b return std::static_pointer_cast<Helianthus::RPC::IRpcService>(std::make_shared<" ++
              r.name ++ ">()); \x7d);"
          else
            "    Helianthus::RPC::RpcServiceRegistry::Get().RegisterService(\"" ++ r.name ++
              "\", \"1.0.0\", []()\x7b return std::shared_ptr<Helianthus::RPC::IRpcService>(); \x7d);"),
         ("\x7d")]
      else [])
  ++ svcMethLoop r r.meths []
  ++ [("\x7d"), ("\x7d\x7d")]

def svcFragmentContent (skipEnv : Bool) (r : ClassRecord) : String :=
  joinNl (svcFragmentLines skipEnv r)

/-! ## Output paths and the main pipeline (`main`, lines 378-442) -/

def splitSlash (s : String) : List String := if s = "" then [] else pySplitOnChar '/' s

def classesDirOf (outDir : FPath) : FPath := outDir ++ [("classes")]

def fragDir (outDir : FPath) (r : ClassRecord) : FPath :=
  classesDirOf outDir ++ splitSlash r.rel_dir

def regPath (outDir : FPath) (r : ClassRecord) : FPath :=
  fragDir outDir r ++ [r.name ++ ("_registration.cpp")]

def svcPath (outDir : FPath) (r : ClassRecord) : FPath :=
  fragDir outDir r ++ [r.name ++ ("_services.cpp")]

/-- The alive set collected while emitting per-class fragments
(lines 584, 650, 690). -/
def aliveList (outDir : FPath) (records : List ClassRecord) : List FPath :=
  records.flatMap (fun r => [regPath outDir r, svcPath outDir r])

def lookupStr (m : List (String × String)) (k : String) : Option String :=
  (m.find? (fun e => e.1 = k)).map (fun e => e.2)

/-- Python dict assignment `d[k] = v` (replace or append). -/
def dictInsert (m : List (String × String)) (k v : String) : List (String × String) :=
  if m.any (fun e => e.1 == k) then m.map (fun e => if e.1 == k then (k, v) else e)
  else m ++ [(k, v)]

/-- `class_hash_map` built by the per-class loop (lines 587-588): last
writer wins on duplicate class names. -/
def classHashMap (records : List ClassRecord) : List (String × String) :=
  records.foldl (fun m r => dictInsert m r.name (compute_class_hash r)) []

def insertPairSorted (x : String × String) :
    List (String × String) → List (String × String)
  | [] => [x]
  | y :: ys => if x.1 ≤ y.1 then x :: y :: ys else y :: insertPairSorted x ys

def sortPairsByKey (m : List (String × String)) : List (String × String) :=
  m.foldr insertPairSorted []

def commaNlJoin : List String → String
  | [] => ""
  | [x] => x
  | x :: xs => x ++ ",\n" ++ commaNlJoin xs

/-- `json.dump(class_hash_map, f, ensure_ascii=False, indent=2,
sort_keys=True)` (line 440). -/
def cacheJson (m : List (String × String)) : String :=
  match sortPairsByKey m with
  | [] => "\x7b\x7d"
  | sorted =>
    "\x7b\n" ++ commaNlJoin (sorted.map (fun e =>
      "  " ++ jsonStr e.1 ++ ": " ++ jsonStr e.2)) ++ "\n\x7d"

def cachePathOf (outDir : FPath) : FPath := outDir ++ [(".refl_cache.json")]

/-- The per-class emission loop (lines 586-694) as file operations, in
source order: for each class, write-if-changed the registration fragment
then the services fragment.  The cached hash is looked up (line 692) and —
exactly as in the source — never used. -/
def fragmentOps (outDir : FPath) (skipEnv : Bool) (cache : List (String × String))
    (records : List ClassRecord) : List FsOp :=
  records.flatMap (fun r =>
    let _cached_hash := lookupStr cache r.name
    [.wic (regPath outDir r) (regFragmentContent r),
     .wic (svcPath outDir r) (svcFragmentContent skipEnv r)])

/-- The operations preceding the stale-file reap: the header write and the
per-class fragment writes. -/
def mainOpsPre (records : List ClassRecord) (includes : List String) (outDir : FPath)
    (skipEnv : Bool) (cache : List (String × String)) : List FsOp :=
  .wic (outDir ++ [("reflection_gen.h")]) (generate_header_content includes)
    :: fragmentOps outDir skipEnv cache records

/-- The five aggregator writes that follow the reap (lines 424-436). -/
def aggOps (records : List ClassRecord) (outDir : FPath) : List FsOp :=
  [.wic (outDir ++ [("reflection_registrations.cpp")]) (generate_registrations_content records),
   .wic (outDir ++ [("reflection_services.cpp")]) (generate_services_content records),
   .wic (outDir ++ [("reflection_auto_mount.cpp")]) generate_auto_mount_content,
   .wic (outDir ++ [("reflection_init.cpp")]) generate_init_content,
   .wic (outDir ++ [("reflection_classes_compilation.cpp")]) (generate_classes_compilation_content records)]

/-- The complete `main` run (lines 415-442) as a file-operation plan, in
source order: header file; per-class fragments followed by the stale-file
reap (both inside `generate_per_class_files`); the registrations, services,
auto-mount, init and aggregate-compilation files; finally the unconditional
cache rewrite. -/
def mainOps (records : List ClassRecord) (includes : List String) (outDir : FPath)
    (skipEnv : Bool) (cache : List (String × String)) : List FsOp :=
  mainOpsPre records includes outDir skipEnv cache
  ++ .reap (classesDirOf outDir) (aliveList outDir records)
    :: (aggOps records outDir
        ++ [.put (cachePathOf outDir) (cacheJson (classHashMap records))])

def runMain (records : List ClassRecord) (includes : List String) (outDir : FPath)
    (skipEnv : Bool) (cache : List (String × String)) (fs : FS) : FS × List Bool :=
  execOps fs (mainOps records includes outDir skipEnv cache)

/-- A sample class record (tags in order `A`, `B`). -/
def hashSampleAB : ClassRecord :=
  ⟨("C"), [("A"), ("B")], [(("t"), ("p"))], [(("T"), ("M"))], [("F")],
    false, true, [], [], [], [], [], ("")⟩

/-- The same record with its tag list reversed. -/
def hashSampleBA : ClassRecord := { hashSampleAB with tags := [("B"), ("A")] }

/-- The claim's notion of "lies in the conventionally-named tests subtree":
the relative output subdirectory is the `Tests` directory itself or any
directory below it. -/
def liesInTestsSubtree (relDir : String) : Bool :=
  relDir == ("Tests") || pyStartsWith relDir ("Tests/")

/-- A class whose source file sits directly in the `Tests` directory
(`rel_dir = "Tests"`, as `os.path.dirname(os.path.relpath(...))` produces
for `Tests/File.h`). -/
def testsDirRecord : ClassRecord :=
  ⟨("T"), [], [], [], [], false, true, [], [], [], [], [], ("Tests")⟩

/-- What an operation must satisfy so that a later read of path `p` is
unaffected by it. -/
def OpPreserves (p : FPath) : FsOp → Prop
  | .wic q _ => q ≠ p
  | .put q _ => q ≠ p
  | .reap dir alive => reapDelete dir alive p = false

/-- Each conditional write's path is untouched by every later operation of
the plan. -/
def WicsRecoverable : List FsOp → Prop
  | [] => True
  | .wic p _ :: rest => (∀ op ∈ rest, OpPreserves p op) ∧ WicsRecoverable rest
  | _ :: rest => WicsRecoverable rest

/-- What an operation must satisfy so that it does not change the current
file system `fs` at all. -/
def OpNoop (fs : FS) : FsOp → Prop
  | .wic p c => lookupFS fs p = some c
  | .put p c => setFS p c fs = fs
  | .reap dir alive => reapFS dir alive fs = fs

/-- Path membership preserved forward: every entry of the resulting file
system either was already present or was written by one of the operations;
in particular a path-level predicate holding of the initial entries and of
every written path holds of all final entries. -/
def OpPathOk (Q : FPath → Bool) : FsOp → Prop
  | .wic p _ => Q p = true
  | .put p _ => Q p = true
  | .reap _ _ => True

def opsPaths (ops : List FsOp) : List FPath :=
  ops.filterMap (fun op => match op with
    | .wic p _ => some p
    | .put p _ => some p
    | .reap _ _ => none)

/-! ## Witness inputs and witnesses -/

/-- A header-mode sample class. -/
def idemRecA : ClassRecord :=
  ⟨("Alpha"), [("Tag")], [(("t"), ("x"))], [(("Rpc"), ("Do"))], [("F")],
    true, true, [], [], [], [], [], ("")⟩

/-- A non-header sample class in a subdirectory. -/
def idemRecB : ClassRecord :=
  ⟨("Beta"), [("NoAutoRegister")], [], [], [], false, false, [], [], [], [], [], ("Sub/Dir")⟩

/-- A sample class below `Tests/`. -/
def testsSlashRecord : ClassRecord :=
  ⟨("U"), [], [], [], [], false, true, [], [], [], [], [], ("Tests/Unit")⟩

/-! ## Theorems -/

theorem scanQualLines_is_deprecated (ls : List String) (q : Qualifiers) :
    (scanQualLines ls q).is_deprecated = q.is_deprecated := by
  induction ls generalizing q with
  | nil => rfl
  | cons l ls ih =>
    simp only [scanQualLines]
    split
    · exact ih q
    · split <;> split <;> first | rfl | exact ih _

/-- C4 (counterexample): two class records equal in every field except the
order of their `tags` list (a permutation) receive different digests from
`_compute_class_hash` — the claim that properties/methods/tags are sorted
before hashing, making the hash order-independent, is false. -/
theorem class_hash_depends_on_tag_order :
    hashSampleBA = { hashSampleAB with tags := hashSampleAB.tags.reverse } ∧
    hashSampleAB.tags.Perm hashSampleBA.tags ∧
    compute_class_hash hashSampleAB ≠ compute_class_hash hashSampleBA := by
  refine ⟨by decide, by decide, by decide⟩

/-- C4 (amended): `_compute_class_hash` is a deterministic function of the
record that serializes the payload with JSON object keys sorted
(`sort_keys=True` affects only object keys) while list-valued fields keep
their stored order, and hashes the UTF-8 serialization with SHA-256; on the
sample record the canonical serialization and digest are exactly the
following, and reversing the tag list changes the digest. -/
theorem class_hash_canonical_serialization :
    classPayloadJson hashSampleAB =
      ("\x7b\"header_mode\": true, \"meths\": [\x7b\"comment\": \"\", \"name\": \"M\", \"params\": [], \"qualifiers\": \x7b\x7d, \"ret\": \"\", \"tag\": \"T\", \"tags\": [\"T\"]\x7d], \"name\": \"C\", \"props\": [[\"t\", \"p\"]], \"rel_dir\": \"\", \"rpc_factory\": false, \"sfuncs\": [\"F\"], \"tags\": [\"A\", \"B\"]\x7d") ∧
    compute_class_hash hashSampleAB =
      ("024843de2c7e285db9de120a44b9dd13b2d13b1ff7d0049fe5afcf4f0b169b79") ∧
    compute_class_hash hashSampleBA =
      ("da183b5126be51850d41b140fe7932bfce0ceff844e565386bbb0bfd5487bcd1") := by
  refine ⟨by decide, by decide, by decide⟩

/-- C3 (counterexample): for the method `void Foo();` annotated
`HMETHOD(Rpc|Const|Deprecated)` at the very start of a file (so that the
backward scan over `text[:method_start]` sees no declaration line), the
qualifier record has `IsConst = false`, contradicting the claim that every
method with this tag string gets `IsConst = true`; the business tags and
`IsDeprecated` come out as claimed, so this is a genuine instance of the
claim's premise. -/
theorem const_tag_does_not_set_is_const :
    (parse_qualifiers_from_tags ("Rpc|Const|Deprecated")
        ("HMETHOD(Rpc|Const|Deprecated)\nvoid Foo();") 0).is_const = false ∧
    (parse_qualifiers_from_tags ("Rpc|Const|Deprecated")
        ("HMETHOD(Rpc|Const|Deprecated)\nvoid Foo();") 0).is_deprecated = true ∧
    filterStructuralTags (parse_tags ("Rpc|Const|Deprecated")) = [("Rpc"), ("Deprecated")] := by
  decide

/-- C3 (amended): a method whose annotation tag string is
`Rpc|Const|Deprecated` always has business tag set `[Rpc, Deprecated]`
(the structural tag `Const` is filtered out of the emitted registration
call) and `IsDeprecated = true`; `IsConst`, however, is not derived from
the tag at all — it is inferred from the declaration text scanned backward
from the method position, so it is not necessarily true. -/
theorem rpc_const_deprecated_tag_behavior (text : String) (method_start : Nat) :
    filterStructuralTags (parse_tags ("Rpc|Const|Deprecated")) = [("Rpc"), ("Deprecated")] ∧
    (parse_qualifiers_from_tags ("Rpc|Const|Deprecated") text method_start).is_deprecated
      = true := by
  refine ⟨by decide, ?_⟩
  unfold parse_qualifiers_from_tags
  rw [scanQualLines_is_deprecated]
  decide

/-- C2: the parameter list
`std::map<int, std::string> m, int (*cb)(int, int), const std::string& name = "a,b"`
is split by `split_params` into exactly the three top-level parameters
(the commas inside the template argument list, the function-pointer
declarator and the quoted default value do not split), and
`extract_param_name` yields the names `m`, `cb` and `name` for the three
parts. -/
theorem split_params_three_top_level_params :
    split_params ("std::map<int, std::string> m, int (*cb)(int, int), const std::string& name = \"a,b\"")
      = [("std::map<int, std::string> m"), ("int (*cb)(int, int)"),
         ("const std::string& name = \"a,b\"")] ∧
    (split_params ("std::map<int, std::string> m, int (*cb)(int, int), const std::string& name = \"a,b\"")).map extract_param_name
      = [some ("m"), some ("cb"), some ("name")] := by
  refine ⟨by decide, by decide⟩

/-- C8 (counterexample): for the type-only parameter declaration `int`,
`extract_param_name` does not report "no name": the final fallback returns
the last identifier-shaped token, which is the type itself. -/
theorem type_only_param_yields_type_name :
    extract_param_name ("int") = some ("int") ∧
    ¬(extract_param_name ("int") = none) := by
  refine ⟨by decide, by decide⟩

/-- C8 (amended): `extract_param_name` falls back to the last
identifier-shaped token even for type-only parameter declarations
(`int` ↦ `int`, `const std::string&` ↦ `string`); it reports no name only
when the text contains no identifier-shaped token at all (e.g. `...`). -/
theorem extract_param_name_fallback :
    extract_param_name ("int") = some ("int") ∧
    extract_param_name ("const std::string&") = some ("string") ∧
    extract_param_name ("...") = none := by
  refine ⟨by decide, by decide, by decide⟩

/-- C7 (counterexample): for the file text `HCLASS(Tag)\nclass Foo;` the
class `Foo` has no body-opening delimiter anywhere (no line contains both
`class Foo` and `{`), yet `parse_file` does NOT drop it: a tuple for `Foo`
is produced, whose class text is the entire remainder of the file from the
match.  This contradicts the claim that no tuple appears for such a
class. -/
theorem no_brace_class_still_parsed :
    parse_file ("HCLASS(Tag)\nclass Foo;") =
      [(("Foo"), ("Tag"), ("HCLASS(Tag)\nclass Foo;"), false)] ∧
    ∀ line ∈ pySplitOnChar '\n' ("HCLASS(Tag)\nclass Foo;"),
      ¬(strContains line ("class Foo") && line.data.contains '\x7b') = true := by
  decide

/-- C7 (amended): an annotated class whose body delimiter is never found is
not dropped: every `CLASS_RE` match (here: annotation-before-class branch)
with non-empty raw groups contributes its tuple to `parse_file`'s output,
with the class text produced by `_extract_class_text` from the match
position (for a braceless class this is the whole remainder of the file),
and `parse_file` is a total function (it cannot raise). -/
theorem parse_file_keeps_braceless_class (text : String) (m : ClassMatch)
    (g1 g2 : String) (hm : m ∈ classMatchesOf text) (hd : m.data = .viaA g1 g2)
    (h1 : g1 ≠ "") (h2 : g2 ≠ "") :
    (pyStrip g2, pyStrip g1, extract_class_text text m.pos (pyStrip g2),
      has_rpc_factory_in (strip_line_comments (extract_class_text text m.pos (pyStrip g2))))
      ∈ parse_file text := by
  unfold parse_file
  apply List.mem_filterMap.mpr
  refine ⟨m, hm, ?_⟩
  rw [hd]
  simp [h1, h2]

theorem parse_file_keeps_braceless_class_witness :
    (("Foo"), ("Tag"), ("HCLASS(Tag)\nclass Foo;"), false) ∈
      parse_file ("HCLASS(Tag)\nclass Foo;") := by
  have h := parse_file_keeps_braceless_class ("HCLASS(Tag)\nclass Foo;")
    ⟨0, .viaA ("Tag") ("Foo")⟩ ("Tag") ("Foo") (by decide) rfl (by decide) (by decide)
  simpa using h

/-! ## Generic string lemmas used by the aggregator/reaper theorems -/

theorem strData_append (s t : String) : (s ++ t).data = s.data ++ t.data :=
  String.data_append s t

theorem str_append_right_inj {a b s : String} (h : a ++ s = b ++ s) : a = b := by
  have hd : a.data ++ s.data = b.data ++ s.data := by
    rw [← strData_append, ← strData_append, h]
  exact String.ext (List.append_cancel_right hd)

theorem str_affix_inj {pre suf a b : String} (h : pre ++ a ++ suf = pre ++ b ++ suf) :
    a = b := by
  have hd : (pre.data ++ a.data) ++ suf.data = (pre.data ++ b.data) ++ suf.data := by
    have h1 := congrArg String.data h
    simpa [strData_append] using h1
  have h2 : pre.data ++ a.data = pre.data ++ b.data := List.append_cancel_right hd
  exact String.ext (List.append_cancel_left h2)

theorem str_ne_of_not_prefix {pre x F : String}
    (h : pre.data.isPrefixOf F.data = false) : pre ++ x ≠ F := by
  intro he
  have : pre.data.isPrefixOf F.data = true := by
    rw [List.isPrefixOf_iff_prefix]
    rw [← he, strData_append]
    exact List.prefix_append _ _
  rw [this] at h
  exact absurd h (by simp)

theorem str_not_mem_of_all_not_prefix (pre x : String) (L : List String)
    (h : L.all (fun F => !(pre.data.isPrefixOf F.data)) = true) : (pre ++ x) ∉ L := by
  intro hm
  have := List.all_eq_true.mp h _ hm
  exact str_ne_of_not_prefix (by simpa using this) rfl

/-- Membership-first variant, so that the list can be inferred from the
membership hypothesis. -/
theorem str_mem_all_not_prefix_false {pre x : String} {L : List String}
    (hm : (pre ++ x) ∈ L)
    (h : L.all (fun F => !(pre.data.isPrefixOf F.data)) = true) : False :=
  str_not_mem_of_all_not_prefix pre x L h hm

theorem str_append_ne_of_head_ne (pre1 x1 pre2 x2 : String) (c1 c2 : Char)
    (h1 : pre1.data.head? = some c1) (h2 : pre2.data.head? = some c2) (hc : c1 ≠ c2) :
    pre1 ++ x1 ≠ pre2 ++ x2 := by
  intro he
  have hd := congrArg (fun s => s.data.head?) he
  simp only [strData_append, List.head?_append, h1, h2, Option.or] at hd
  exact hc (by injection hd)

/-- C10: in the per-class registration fragment, the emitted
`RegisterProperty` lines are exactly those of the properties whose
declaring tag — after removing double and single quotes and trimming — is
non-empty and contains no space; properties with an empty or space-bearing
cleaned tag are silently omitted.  Holds for both header mode and
non-header mode. -/
theorem register_property_filter (header_mode : Bool) (class_name : String)
    (props : List (String × String)) :
    propsLoop header_mode class_name props
      = (props.filter (fun p =>
          !((clean_tag_of p.1).data.contains ' ' || clean_tag_of p.1 = ""))).map
          (propLine header_mode class_name) := by
  induction props with
  | nil => rfl
  | cons p ps ih =>
    simp only [propsLoop, List.filter_cons]
    rcases Bool.eq_false_or_eq_true
        ((clean_tag_of p.1).data.contains ' ' || decide (clean_tag_of p.1 = "")) with hb | hb
    · simp only [hb, ih]
      simp
    · simp only [hb, ih]
      simp

theorem not_mem_append5 {α : Type} {x : α} {A B C D E : List α}
    (hA : x ∉ A) (hB : x ∉ B) (hC : x ∉ C) (hD : x ∉ D) (hE : x ∉ E) :
    x ∉ (A ++ B ++ C ++ D ++ E) := by
  intro h
  simp only [List.mem_append] at h
  tauto

/-- A per-class entry built from a class name between a fixed prefix and
suffix is absent from the aggregator map for a `Tests/`-filtered class,
given unique names. -/
theorem not_mem_affix_map (pre suf : String) (records : List ClassRecord)
    (r : ClassRecord) (hr : r ∈ records)
    (ht : pyStartsWith r.rel_dir ("Tests/") = true)
    (hnames : (records.map ClassRecord.name).Nodup) :
    (pre ++ r.name ++ suf) ∉ (aggregatorClasses records).map
      (fun s => pre ++ s.name ++ suf) := by
  intro hmem
  rcases List.mem_map.mp hmem with ⟨s, hs, he⟩
  have hname : s.name = r.name := str_affix_inj he
  have hsr : s ∈ records := (List.mem_filter.mp hs).1
  have hsrr : s = r := List.inj_on_of_nodup_map hnames hsr hr hname
  subst hsrr
  have hflt := (List.mem_filter.mp hs).2
  unfold aggregatorClasses at hflt
  simp [ht] at hflt

/-- C6 (counterexample): a class whose relative output subdirectory is
exactly `Tests` (its source file sits directly in the `Tests` directory,
hence it lies in the conventionally-named tests subtree) appears in all
three whole-tree aggregators, because the exclusion test is the literal
`rel_dir.startswith('Tests/')`, which `"Tests"` fails. -/
theorem tests_dir_class_in_aggregators :
    liesInTestsSubtree testsDirRecord.rel_dir = true ∧
    ("void RegisterClass_T();") ∈ generate_registrations_lines [testsDirRecord] ∧
    ("    RegisterClass_T();") ∈ generate_registrations_lines [testsDirRecord] ∧
    ("void RegisterRpc_T();") ∈ generate_services_lines [testsDirRecord] ∧
    ("    RegisterRpc_T();") ∈ generate_services_lines [testsDirRecord] ∧
    ("#include \"classes/Tests/T_registration.cpp\"")
      ∈ generate_classes_compilation_lines [testsDirRecord] ∧
    ("#include \"classes/Tests/T_services.cpp\"")
      ∈ generate_classes_compilation_lines [testsDirRecord] := by
  decide

/-- C6 (amended): the exclusion convention implemented by all three
whole-tree aggregators is `rel_dir.startswith('Tests/')` — a class in a
strict subpath of `Tests/` is excluded from the aggregator class list, its
`RegisterClass_/RegisterRpc_` declaration and call lines appear nowhere in
the registrations or services files, and (like every class) its two
per-class fragment files are still generated, i.e. they are in the alive
set written by the per-class emission; classes whose `rel_dir` is exactly
`"Tests"` are not excluded (see the counterexample). -/
theorem tests_slash_classes_excluded (records : List ClassRecord) (outDir : FPath)
    (r : ClassRecord) (hr : r ∈ records)
    (ht : pyStartsWith r.rel_dir ("Tests/") = true)
    (hnames : (records.map ClassRecord.name).Nodup) :
    r ∉ aggregatorClasses records ∧
    ("void RegisterClass_" ++ r.name ++ "();") ∉ generate_registrations_lines records ∧
    ("    RegisterClass_" ++ r.name ++ "();") ∉ generate_registrations_lines records ∧
    ("void RegisterRpc_" ++ r.name ++ "();") ∉ generate_services_lines records ∧
    ("    RegisterRpc_" ++ r.name ++ "();") ∉ generate_services_lines records ∧
    regPath outDir r ∈ aliveList outDir records ∧
    svcPath outDir r ∈ aliveList outDir records := by
  refine ⟨?_, ?_, ?_, ?_, ?_, ?_, ?_⟩
  · intro hmem
    have := (List.mem_filter.mp hmem).2
    simp [ht] at this
  · show ("void RegisterClass_" ++ r.name ++ "();") ∉ _
    unfold generate_registrations_lines
    refine not_mem_append5 ?_ ?_ ?_ ?_ ?_
    · intro h
      rw [String.append_assoc] at h
      exact str_mem_all_not_prefix_false h (by decide)
    · exact not_mem_affix_map ("void RegisterClass_") ("();") records r hr ht hnames
    · intro h
      rw [String.append_assoc] at h
      exact str_mem_all_not_prefix_false h (by decide)
    · intro h
      rcases List.mem_map.mp h with ⟨s, _, he⟩
      refine str_append_ne_of_head_ne ("    RegisterClass_") (s.name ++ ("();"))
        ("void RegisterClass_") (r.name ++ ("();")) ' ' 'v' rfl rfl (by decide) ?_
      rw [← String.append_assoc, ← String.append_assoc]
      exact he
    · intro h
      rw [String.append_assoc] at h
      exact str_mem_all_not_prefix_false h (by decide)
  · show ("    RegisterClass_" ++ r.name ++ "();") ∉ _
    unfold generate_registrations_lines
    refine not_mem_append5 ?_ ?_ ?_ ?_ ?_
    · intro h
      rw [String.append_assoc] at h
      exact str_mem_all_not_prefix_false h (by decide)
    · intro h
      rcases List.mem_map.mp h with ⟨s, _, he⟩
      refine str_append_ne_of_head_ne ("void RegisterClass_") (s.name ++ ("();"))
        ("    RegisterClass_") (r.name ++ ("();")) 'v' ' ' rfl rfl (by decide) ?_
      rw [← String.append_assoc, ← String.append_assoc]
      exact he
    · intro h
      rw [String.append_assoc] at h
      exact str_mem_all_not_prefix_false h (by decide)
    · exact not_mem_affix_map ("    RegisterClass_") ("();") records r hr ht hnames
    · intro h
      rw [String.append_assoc] at h
      exact str_mem_all_not_prefix_false h (by decide)
  · show ("void RegisterRpc_" ++ r.name ++ "();") ∉ _
    unfold generate_services_lines
    refine not_mem_append5 ?_ ?_ ?_ ?_ ?_
    · intro h
      rw [String.append_assoc] at h
      exact str_mem_all_not_prefix_false h (by decide)
    · exact not_mem_affix_map ("void RegisterRpc_") ("();") records r hr ht hnames
    · intro h
      rw [String.append_assoc] at h
      exact str_mem_all_not_prefix_false h (by decide)
    · intro h
      rcases List.mem_map.mp h with ⟨s, _, he⟩
      refine str_append_ne_of_head_ne ("    RegisterRpc_") (s.name ++ ("();"))
        ("void RegisterRpc_") (r.name ++ ("();")) ' ' 'v' rfl rfl (by decide) ?_
      rw [← String.append_assoc, ← String.append_assoc]
      exact he
    · intro h
      rw [String.append_assoc] at h
      exact str_mem_all_not_prefix_false h (by decide)
  · show ("    RegisterRpc_" ++ r.name ++ "();") ∉ _
    unfold generate_services_lines
    refine not_mem_append5 ?_ ?_ ?_ ?_ ?_
    · intro h
      rw [String.append_assoc] at h
      exact str_mem_all_not_prefix_false h (by decide)
    · intro h
      rcases List.mem_map.mp h with ⟨s, _, he⟩
      refine str_append_ne_of_head_ne ("void RegisterRpc_") (s.name ++ ("();"))
        ("    RegisterRpc_") (r.name ++ ("();")) 'v' ' ' rfl rfl (by decide) ?_
      rw [← String.append_assoc, ← String.append_assoc]
      exact he
    · intro h
      rw [String.append_assoc] at h
      exact str_mem_all_not_prefix_false h (by decide)
    · exact not_mem_affix_map ("    RegisterRpc_") ("();") records r hr ht hnames
    · intro h
      rw [String.append_assoc] at h
      exact str_mem_all_not_prefix_false h (by decide)
  · exact List.mem_flatMap.mpr ⟨r, hr, by simp⟩
  · exact List.mem_flatMap.mpr ⟨r, hr, by simp⟩

/-! ## Lemmas about the file-system operations -/

theorem find?_filter_keep {α : Type} (pred keep : α → Bool) (l : List α)
    (h : ∀ e, pred e = true → keep e = true) :
    List.find? pred (l.filter keep) = List.find? pred l := by
  induction l with
  | nil => rfl
  | cons e l ih =>
    by_cases hp : pred e = true
    · rw [List.filter_cons, if_pos (h e hp)]
      rw [List.find?_cons_of_pos _ hp, List.find?_cons_of_pos _ hp]
    · by_cases hk : keep e = true
      · rw [List.filter_cons, if_pos hk]
        rw [List.find?_cons_of_neg _ hp, List.find?_cons_of_neg _ hp, ih]
      · rw [List.filter_cons, if_neg (by simp [hk]), List.find?_cons_of_neg _ hp, ih]

theorem lookupFS_setFS_self (fs : FS) (p : FPath) (c : String) :
    lookupFS (setFS p c fs) p = some c := by
  unfold lookupFS setFS
  rw [List.find?_append]
  have h1 : List.find? (fun e => decide (e.1 = p)) (fs.filter (fun e => decide ¬(e.1 = p))) = none := by
    rw [List.find?_eq_none]
    intro e he
    have := (List.mem_filter.mp he).2
    simpa using this
  rw [h1]
  simp [List.find?]

theorem lookupFS_setFS_ne (fs : FS) (p : FPath) (c : String) (q : FPath) (h : q ≠ p) :
    lookupFS (setFS p c fs) q = lookupFS fs q := by
  unfold lookupFS setFS
  have hk : List.find? (fun (e : FPath × String) => decide (e.1 = q))
      (List.filter (fun e => decide ¬(e.1 = p)) fs) = List.find? (fun e => decide (e.1 = q)) fs := by
    apply find?_filter_keep
    intro e he
    have he2 : e.1 = q := by simpa using he
    simp [he2, h]
  rw [List.find?_append, hk]
  cases hf : List.find? (fun (e : FPath × String) => decide (e.1 = q)) fs
  · have hp : decide (p = q) = false := by
      simp only [decide_eq_false_iff_not]
      exact fun hh => h hh.symm
    simp [List.find?, hp]
  · simp

theorem wic_fst_lookup_self (fs : FS) (p : FPath) (c : String) :
    lookupFS (write_if_changed p c fs).1 p = some c := by
  unfold write_if_changed
  cases hl : lookupFS fs p with
  | none => simp [lookupFS_setFS_self]
  | some old =>
    by_cases he : old = c
    · subst he; simp [hl]
    · simp [he, lookupFS_setFS_self]

theorem wic_fst_lookup_ne (fs : FS) (p : FPath) (c : String) (q : FPath) (h : q ≠ p) :
    lookupFS (write_if_changed p c fs).1 q = lookupFS fs q := by
  unfold write_if_changed
  cases hl : lookupFS fs p with
  | none => simp [lookupFS_setFS_ne _ _ _ _ h]
  | some old =>
    by_cases he : old = c
    · simp [he]
    · simp [he, lookupFS_setFS_ne _ _ _ _ h]

theorem reap_lookup_not_deleted (dir : FPath) (alive : List FPath) (fs : FS) (p : FPath)
    (h : reapDelete dir alive p = false) :
    lookupFS (reapFS dir alive fs) p = lookupFS fs p := by
  unfold lookupFS reapFS
  rw [find?_filter_keep]
  intro e he
  have he2 : e.1 = p := by simpa using he
  rw [he2, h]
  rfl

theorem wic_noop (fs : FS) (p : FPath) (c : String) (h : lookupFS fs p = some c) :
    write_if_changed p c fs = (fs, false) := by
  unfold write_if_changed
  rw [h]
  simp

theorem execOps_cons (fs : FS) (op : FsOp) (ops : List FsOp) :
    execOps fs (op :: ops)
      = ((execOps (execOp fs op).1 ops).1, (execOp fs op).2 ++ (execOps (execOp fs op).1 ops).2) :=
  rfl

theorem execOps_append (fs : FS) (l1 l2 : List FsOp) :
    execOps fs (l1 ++ l2)
      = ((execOps (execOps fs l1).1 l2).1, (execOps fs l1).2 ++ (execOps (execOps fs l1).1 l2).2) := by
  induction l1 generalizing fs with
  | nil => simp [execOps]
  | cons op l1 ih =>
    rw [List.cons_append, execOps_cons, ih, execOps_cons]
    simp

theorem setFS_idem (p : FPath) (c : String) (fs : FS) :
    setFS p c (setFS p c fs) = setFS p c fs := by
  unfold setFS
  rw [List.filter_append]
  have h1 : ∀ l : FS, (l.filter (fun e => decide ¬(e.1 = p))).filter (fun e => decide ¬(e.1 = p))
      = l.filter (fun e => decide ¬(e.1 = p)) := by
    intro l
    induction l with
    | nil => rfl
    | cons e l ih =>
      by_cases he : e.1 = p
      · simp [List.filter_cons, he, ih]
      · simp [List.filter_cons, he, ih]
  rw [h1]
  simp

theorem lookup_preserved (ops : List FsOp) (fs : FS) (p : FPath)
    (h : ∀ op ∈ ops, OpPreserves p op) :
    lookupFS (execOps fs ops).1 p = lookupFS fs p := by
  induction ops generalizing fs with
  | nil => rfl
  | cons op ops ih =>
    have hop := h op (by simp)
    have hrest : ∀ o ∈ ops, OpPreserves p o := fun o ho => h o (by simp [ho])
    rw [execOps_cons]
    simp only
    rw [ih _ hrest]
    cases op with
    | wic q c => exact wic_fst_lookup_ne _ _ _ _ (fun he => hop he.symm)
    | put q c => exact lookupFS_setFS_ne _ _ _ _ (fun he => hop he.symm)
    | reap dir alive => exact reap_lookup_not_deleted _ _ _ _ hop

theorem wics_hold (ops : List FsOp) (fs : FS) (h : WicsRecoverable ops)
    (p : FPath) (c : String) (hm : FsOp.wic p c ∈ ops) :
    lookupFS (execOps fs ops).1 p = some c := by
  induction ops generalizing fs with
  | nil => simp at hm
  | cons op ops ih =>
    rw [execOps_cons]
    simp only
    rcases List.mem_cons.mp hm with he | hm2
    · subst he
      rw [lookup_preserved ops _ p h.1]
      simpa [execOp] using wic_fst_lookup_self fs p c
    · have hrest : WicsRecoverable ops := by
        cases op with
        | wic q d => exact h.2
        | put q d => exact h
        | reap dir alive => exact h
      exact ih _ hrest hm2

theorem execOps_noop (ops : List FsOp) (fs : FS) (h : ∀ op ∈ ops, OpNoop fs op) :
    (execOps fs ops).1 = fs ∧ (execOps fs ops).2.all (fun b => b = false) = true := by
  induction ops with
  | nil => simp [execOps]
  | cons op ops ih =>
    have hop := h op (by simp)
    have hrest : ∀ o ∈ ops, OpNoop fs o := fun o ho => h o (List.mem_cons_of_mem _ ho)
    have hexec1 : (execOp fs op).1 = fs := by
      cases op with
      | wic p c => simp [execOp, wic_noop fs p c hop]
      | put p c => simpa [execOp] using hop
      | reap dir alive => simpa [execOp] using hop
    have hexec2 : (execOp fs op).2.all (fun b => b = false) = true := by
      cases op with
      | wic p c => simp [execOp, wic_noop fs p c hop]
      | put p c => simp [execOp]
      | reap dir alive => simp [execOp]
    rw [execOps_cons]
    simp only [hexec1]
    rcases ih hrest with ⟨ih1, ih2⟩
    refine ⟨ih1, ?_⟩
    rw [List.all_append, hexec2, ih2]
    rfl

theorem execOps_entry_pred (Q : FPath → Bool) (ops : List FsOp) (fs : FS)
    (hfs : ∀ e ∈ fs, Q e.1 = true) (hops : ∀ op ∈ ops, OpPathOk Q op) :
    ∀ e ∈ (execOps fs ops).1, Q e.1 = true := by
  induction ops generalizing fs with
  | nil => simpa [execOps] using hfs
  | cons op ops ih =>
    rw [execOps_cons]
    simp only
    refine ih _ ?_ (fun o ho => hops o (by simp [ho]))
    have hop := hops op (by simp)
    cases op with
    | wic p c =>
      intro e he
      simp only [execOp] at he
      unfold write_if_changed at he
      have hset : ∀ e2 ∈ setFS p c fs, Q e2.1 = true := by
        intro e2 he2
        unfold setFS at he2
        rcases List.mem_append.mp he2 with h2 | h2
        · exact hfs _ (List.mem_filter.mp h2).1
        · simp at h2
          rw [h2]
          exact hop
      split at he
      · split at he
        · exact hfs _ he
        · exact hset _ he
      · exact hset _ he
    | put p c =>
      intro e he
      simp only [execOp] at he
      unfold setFS at he
      rcases List.mem_append.mp he with h2 | h2
      · exact hfs _ (List.mem_filter.mp h2).1
      · simp at h2
        rw [h2]
        exact hop
    | reap dir alive =>
      intro e he
      simp only [execOp] at he
      exact hfs _ (List.mem_filter.mp he).1

/-! ## Path distinctness facts -/

theorem path_ne_of_getLast_ne {l1 l2 : FPath} {a b : String} (h : a ≠ b) :
    l1 ++ [a] ≠ l2 ++ [b] := by
  intro he
  have hl := congrArg List.getLast? he
  simp at hl
  exact h hl

theorem regName_ne_svcName (a b : String) :
    a ++ ("_registration.cpp") ≠ b ++ ("_services.cpp") := by
  intro h
  have hA : ("_registration.cpp" : String).data <:+ (b ++ ("_services.cpp")).data := by
    rw [← h, strData_append]
    exact List.suffix_append _ _
  have hB : ("_services.cpp" : String).data <:+ (b ++ ("_services.cpp")).data := by
    rw [strData_append]
    exact List.suffix_append _ _
  have hsub : ("_services.cpp" : String).data <:+ ("_registration.cpp" : String).data :=
    List.suffix_of_suffix_length_le hB hA (by decide)
  exact absurd hsub (by decide)

theorem regPath_ne_svcPath (outDir : FPath) (r1 r2 : ClassRecord) :
    regPath outDir r1 ≠ svcPath outDir r2 :=
  path_ne_of_getLast_ne (regName_ne_svcName _ _)

theorem regPath_inj_name (outDir : FPath) {r1 r2 : ClassRecord} (h : r1.name ≠ r2.name) :
    regPath outDir r1 ≠ regPath outDir r2 :=
  path_ne_of_getLast_ne (fun he => h (str_append_right_inj he))

theorem svcPath_inj_name (outDir : FPath) {r1 r2 : ClassRecord} (h : r1.name ≠ r2.name) :
    svcPath outDir r1 ≠ svcPath outDir r2 :=
  path_ne_of_getLast_ne (fun he => h (str_append_right_inj he))

theorem regPath_length (outDir : FPath) (r : ClassRecord) :
    (regPath outDir r).length = outDir.length + 2 + (splitSlash r.rel_dir).length := by
  simp [regPath, fragDir, classesDirOf]
  omega

theorem svcPath_length (outDir : FPath) (r : ClassRecord) :
    (svcPath outDir r).length = outDir.length + 2 + (splitSlash r.rel_dir).length := by
  simp [svcPath, fragDir, classesDirOf]
  omega

theorem path_ne_of_length_ne {a b : FPath} (h : a.length ≠ b.length) : a ≠ b :=
  fun he => h (by rw [he])

theorem sibling_ne_regPath (outDir : FPath) (x : String) (r : ClassRecord) :
    outDir ++ [x] ≠ regPath outDir r := by
  apply path_ne_of_length_ne
  rw [regPath_length]
  simp
  omega

theorem sibling_ne_svcPath (outDir : FPath) (x : String) (r : ClassRecord) :
    outDir ++ [x] ≠ svcPath outDir r := by
  apply path_ne_of_length_ne
  rw [svcPath_length]
  simp
  omega

theorem sibling_ne (outDir : FPath) {x y : String} (h : x ≠ y) :
    outDir ++ [x] ≠ outDir ++ [y] :=
  path_ne_of_getLast_ne h

/-- A file directly in the output directory (by construction not below the
classes directory) is never a reap candidate. -/
theorem reapDelete_sibling (outDir : FPath) (alive : List FPath) (x : String) :
    reapDelete (classesDirOf outDir) alive (outDir ++ [x]) = false := by
  unfold reapDelete underDir classesDirOf
  have hl : ¬((outDir ++ [("classes")]).length < (outDir ++ [x]).length) := by
    simp
  simp [hl]

theorem reapDelete_alive (dir : FPath) (alive : List FPath) (p : FPath)
    (h : alive.contains p = true) : reapDelete dir alive p = false := by
  unfold reapDelete
  rw [h]
  simp

theorem regPath_mem_alive (outDir : FPath) (records : List ClassRecord)
    (r : ClassRecord) (hr : r ∈ records) :
    (aliveList outDir records).contains (regPath outDir r) = true :=
  List.elem_eq_true_of_mem (List.mem_flatMap.mpr ⟨r, hr, by simp⟩)

theorem svcPath_mem_alive (outDir : FPath) (records : List ClassRecord)
    (r : ClassRecord) (hr : r ∈ records) :
    (aliveList outDir records).contains (svcPath outDir r) = true :=
  List.elem_eq_true_of_mem (List.mem_flatMap.mpr ⟨r, hr, by simp⟩)

/-! ## Recoverability of the whole plan -/

theorem opPreserves_frag (outDir : FPath) (skipEnv : Bool) (cache : List (String × String))
    (q : FPath) (rest : List ClassRecord)
    (hq : ∀ s ∈ rest, regPath outDir s ≠ q ∧ svcPath outDir s ≠ q) :
    ∀ op ∈ fragmentOps outDir skipEnv cache rest, OpPreserves q op := by
  intro op hop
  rcases List.mem_flatMap.mp hop with ⟨s, hs, hmem⟩
  simp only [List.mem_cons, List.mem_singleton] at hmem
  rcases hmem with he | he | he
  · rw [he]
    exact (hq s hs).1
  · rw [he]
    exact (hq s hs).2
  · simp at he

theorem wicsRec_frag (outDir : FPath) (skipEnv : Bool) (cache : List (String × String))
    (records : List ClassRecord) (tail : List FsOp)
    (hnames : (records.map ClassRecord.name).Nodup)
    (htail : ∀ r ∈ records, (∀ op ∈ tail, OpPreserves (regPath outDir r) op) ∧
                            (∀ op ∈ tail, OpPreserves (svcPath outDir r) op))
    (hwtail : WicsRecoverable tail) :
    WicsRecoverable (fragmentOps outDir skipEnv cache records ++ tail) := by
  induction records with
  | nil => simpa [fragmentOps] using hwtail
  | cons r rest ih =>
    rw [List.map_cons, List.nodup_cons] at hnames
    have hrn : ∀ s ∈ rest, s.name ≠ r.name := by
      intro s hs he
      exact hnames.1 (he ▸ List.mem_map_of_mem _ hs)
    show WicsRecoverable (FsOp.wic (regPath outDir r) (regFragmentContent r)
      :: FsOp.wic (svcPath outDir r) (svcFragmentContent skipEnv r)
      :: (fragmentOps outDir skipEnv cache rest ++ tail))
    refine ⟨?_, ?_, ?_⟩
    · intro op hop
      rcases List.mem_cons.mp hop with he | hop2
      · rw [he]
        exact (regPath_ne_svcPath outDir r r).symm
      · rcases List.mem_append.mp hop2 with hf | htl
        · exact opPreserves_frag outDir skipEnv cache _ rest
            (fun s hs => ⟨regPath_inj_name outDir (hrn s hs),
                          (regPath_ne_svcPath outDir r s).symm⟩) op hf
        · exact (htail r (by simp)).1 op htl
    · intro op hop
      rcases List.mem_append.mp hop with hf | htl
      · exact opPreserves_frag outDir skipEnv cache _ rest
          (fun s hs => ⟨regPath_ne_svcPath outDir s r,
                        svcPath_inj_name outDir (hrn s hs)⟩) op hf
      · exact (htail r (by simp)).2 op htl
    · exact ih hnames.2 (fun s hs => htail s (by simp [hs]))

theorem wicsRec_tail (records : List ClassRecord) (outDir : FPath) :
    WicsRecoverable (FsOp.reap (classesDirOf outDir) (aliveList outDir records)
      :: (aggOps records outDir
          ++ [FsOp.put (cachePathOf outDir) (cacheJson (classHashMap records))])) := by
  show WicsRecoverable (aggOps records outDir
      ++ [FsOp.put (cachePathOf outDir) (cacheJson (classHashMap records))])
  simp only [aggOps, List.cons_append, List.nil_append]
  refine ⟨?_, ?_, ?_, ?_, ?_, trivial⟩ <;>
    (intro op hop; fin_cases hop <;> exact sibling_ne outDir (by decide))

theorem mainOps_recoverable (records : List ClassRecord) (includes : List String)
    (outDir : FPath) (skipEnv : Bool) (cache : List (String × String))
    (hnames : (records.map ClassRecord.name).Nodup) :
    WicsRecoverable (mainOps records includes outDir skipEnv cache) := by
  show WicsRecoverable (FsOp.wic (outDir ++ [("reflection_gen.h")])
      (generate_header_content includes)
    :: (fragmentOps outDir skipEnv cache records
        ++ (FsOp.reap (classesDirOf outDir) (aliveList outDir records)
            :: (aggOps records outDir
                ++ [FsOp.put (cachePathOf outDir) (cacheJson (classHashMap records))]))))
  refine ⟨?_, ?_⟩
  · intro op hop
    rcases List.mem_append.mp hop with hf | ht
    · exact opPreserves_frag outDir skipEnv cache _ records
        (fun s hs => ⟨(sibling_ne_regPath outDir _ s).symm,
                      (sibling_ne_svcPath outDir _ s).symm⟩) op hf
    · rcases List.mem_cons.mp ht with he | ht2
      · rw [he]
        exact reapDelete_sibling outDir _ _
      · simp only [aggOps, List.cons_append, List.nil_append] at ht2
        fin_cases ht2 <;> exact sibling_ne outDir (by decide)
  · refine wicsRec_frag outDir skipEnv cache records _ hnames ?_ (wicsRec_tail records outDir)
    intro r hr
    constructor <;>
    · intro op hop
      rcases List.mem_cons.mp hop with he | ht2
      · rw [he]
        first
        | exact reapDelete_alive _ _ _ (regPath_mem_alive outDir records r hr)
        | exact reapDelete_alive _ _ _ (svcPath_mem_alive outDir records r hr)
      · simp only [aggOps, List.cons_append, List.nil_append] at ht2
        fin_cases ht2 <;>
          first
          | exact sibling_ne_regPath outDir _ r
          | exact sibling_ne_svcPath outDir _ r

/-! ## The idempotence and cache-independence theorems -/

theorem execOps_concat_put (fs : FS) (ops : List FsOp) (p : FPath) (c : String) :
    (execOps fs (ops ++ [.put p c])).1 = setFS p c (execOps fs ops).1 := by
  rw [execOps_append]
  simp [execOps, execOp]

theorem mainOps_split_put (records : List ClassRecord) (includes : List String)
    (outDir : FPath) (skipEnv : Bool) (cache : List (String × String)) :
    mainOps records includes outDir skipEnv cache
      = (mainOpsPre records includes outDir skipEnv cache
         ++ FsOp.reap (classesDirOf outDir) (aliveList outDir records)
            :: aggOps records outDir)
        ++ [FsOp.put (cachePathOf outDir) (cacheJson (classHashMap records))] := by
  simp [mainOps]

theorem reapFS_noop_of_entries (dir : FPath) (alive : List FPath) (fs : FS)
    (h : ∀ e ∈ fs, reapDelete dir alive e.1 = false) : reapFS dir alive fs = fs := by
  unfold reapFS
  rw [List.filter_eq_self]
  intro e he
  rw [h e he]
  rfl

theorem put_mem_mainOps {records : List ClassRecord} {includes : List String}
    {outDir : FPath} {skipEnv : Bool} {cache : List (String × String)}
    {p : FPath} {c : String}
    (h : FsOp.put p c ∈ mainOps records includes outDir skipEnv cache) :
    p = cachePathOf outDir ∧ c = cacheJson (classHashMap records) := by
  unfold mainOps mainOpsPre at h
  rcases List.mem_append.mp h with h | h
  · rcases List.mem_cons.mp h with he | h
    · exact absurd he (by simp)
    · rcases List.mem_flatMap.mp h with ⟨s, _, hm⟩
      simp at hm
  · rcases List.mem_cons.mp h with he | h
    · exact absurd he (by simp)
    · rcases List.mem_append.mp h with h | h
      · simp [aggOps] at h
      · simp at h
        exact h

theorem reap_mem_mainOps {records : List ClassRecord} {includes : List String}
    {outDir : FPath} {skipEnv : Bool} {cache : List (String × String)}
    {d : FPath} {a : List FPath}
    (h : FsOp.reap d a ∈ mainOps records includes outDir skipEnv cache) :
    d = classesDirOf outDir ∧ a = aliveList outDir records := by
  unfold mainOps mainOpsPre at h
  rcases List.mem_append.mp h with h | h
  · rcases List.mem_cons.mp h with he | h
    · exact absurd he (by simp)
    · rcases List.mem_flatMap.mp h with ⟨s, _, hm⟩
      simp at hm
  · rcases List.mem_cons.mp h with he | h
    · simp at he
      exact he
    · rcases List.mem_append.mp h with h | h
      · simp [aggOps] at h
      · simp at h

theorem run_entries_not_reapable (records : List ClassRecord) (includes : List String)
    (outDir : FPath) (skipEnv : Bool) (cache : List (String × String)) (fs0 : FS) :
    ∀ e ∈ (runMain records includes outDir skipEnv cache fs0).1,
      reapDelete (classesDirOf outDir) (aliveList outDir records) e.1 = false := by
  intro e he
  have hq := execOps_entry_pred
    (fun p => !(reapDelete (classesDirOf outDir) (aliveList outDir records) p))
    (aggOps records outDir
      ++ [FsOp.put (cachePathOf outDir) (cacheJson (classHashMap records))])
    (reapFS (classesDirOf outDir) (aliveList outDir records)
      (execOps fs0 (mainOpsPre records includes outDir skipEnv cache)).1)
    ?hfs ?hops e ?hmem
  · simpa using hq
  case hfs =>
    intro e2 he2
    exact (List.mem_filter.mp he2).2
  case hops =>
    intro op hop
    rcases List.mem_append.mp hop with h | h
    · simp only [aggOps, List.cons_append, List.nil_append] at h
      fin_cases h <;> simp [OpPathOk, reapDelete_sibling]
    · simp at h
      rw [h]
      simp [OpPathOk, cachePathOf, reapDelete_sibling]
  case hmem =>
    have hrun : (runMain records includes outDir skipEnv cache fs0).1
        = (execOps (reapFS (classesDirOf outDir) (aliveList outDir records)
            (execOps fs0 (mainOpsPre records includes outDir skipEnv cache)).1)
          (aggOps records outDir
            ++ [FsOp.put (cachePathOf outDir) (cacheJson (classHashMap records))])).1 := by
      unfold runMain
      rw [show mainOps records includes outDir skipEnv cache
          = mainOpsPre records includes outDir skipEnv cache
            ++ (FsOp.reap (classesDirOf outDir) (aliveList outDir records)
              :: (aggOps records outDir
                  ++ [FsOp.put (cachePathOf outDir) (cacheJson (classHashMap records))]))
        from rfl]
      rw [execOps_append, execOps_cons]
      simp only [execOp]
    rw [← hrun]
    exact he

/-- C1: on an unchanged source tree (same class records and includes; the
parse phase of the source is a pure function of the tree, so an unchanged
tree yields the same records), with class names unique per run (the data
model's invariant), a second generator run over the file system produced by
the first run leaves the file system exactly unchanged and every
`_write_if_changed` call short-circuits (all write flags are false): output
files are byte-identical and no file is rewritten.  The loaded caches of
the two runs are arbitrary and may differ. -/
theorem generator_idempotent (records : List ClassRecord) (includes : List String)
    (outDir : FPath) (skipEnv : Bool) (cache1 cache2 : List (String × String))
    (fs0 : FS) (hnames : (records.map ClassRecord.name).Nodup) :
    (runMain records includes outDir skipEnv cache2
        (runMain records includes outDir skipEnv cache1 fs0).1).1
      = (runMain records includes outDir skipEnv cache1 fs0).1 ∧
    ((runMain records includes outDir skipEnv cache2
        (runMain records includes outDir skipEnv cache1 fs0).1).2.all
      (fun b => b = false)) = true := by
  have hplan : mainOps records includes outDir skipEnv cache2
      = mainOps records includes outDir skipEnv cache1 := rfl
  have hnoop : ∀ op ∈ mainOps records includes outDir skipEnv cache1,
      OpNoop (runMain records includes outDir skipEnv cache1 fs0).1 op := by
    intro op hop
    cases op with
    | wic p c =>
      show lookupFS (runMain records includes outDir skipEnv cache1 fs0).1 p = some c
      exact wics_hold _ fs0
        (mainOps_recoverable records includes outDir skipEnv cache1 hnames) p c hop
    | put p c =>
      show setFS p c (runMain records includes outDir skipEnv cache1 fs0).1
        = (runMain records includes outDir skipEnv cache1 fs0).1
      rcases put_mem_mainOps hop with ⟨hp, hc⟩
      subst hp
      subst hc
      have hrun : (runMain records includes outDir skipEnv cache1 fs0).1
          = setFS (cachePathOf outDir) (cacheJson (classHashMap records))
            (execOps fs0 (mainOpsPre records includes outDir skipEnv cache1
              ++ FsOp.reap (classesDirOf outDir) (aliveList outDir records)
                :: aggOps records outDir)).1 := by
        unfold runMain
        rw [mainOps_split_put, execOps_concat_put]
      rw [hrun, setFS_idem]
    | reap d a =>
      show reapFS d a (runMain records includes outDir skipEnv cache1 fs0).1
        = (runMain records includes outDir skipEnv cache1 fs0).1
      rcases reap_mem_mainOps hop with ⟨hd, ha⟩
      subst hd
      subst ha
      exact reapFS_noop_of_entries _ _ _
        (run_entries_not_reapable records includes outDir skipEnv cache1 fs0)
  have := execOps_noop (mainOps records includes outDir skipEnv cache2)
    (runMain records includes outDir skipEnv cache1 fs0).1 (by rw [hplan]; exact hnoop)
  exact this

/-- C9: the generated output is independent of the loaded cache content:
two runs over the same records and initial file system with arbitrary
different caches produce identical file systems and write flags (the cached
hash looked up per class is never consulted in any write decision), and the
cache file written at the end contains exactly the hash map computed from
the current run's records. -/
theorem generated_output_cache_independent (records : List ClassRecord)
    (includes : List String) (outDir : FPath) (skipEnv : Bool)
    (c1 c2 : List (String × String)) (fs : FS) :
    runMain records includes outDir skipEnv c1 fs
      = runMain records includes outDir skipEnv c2 fs ∧
    lookupFS (runMain records includes outDir skipEnv c1 fs).1 (cachePathOf outDir)
      = some (cacheJson (classHashMap records)) := by
  refine ⟨rfl, ?_⟩
  unfold runMain
  rw [mainOps_split_put, execOps_concat_put]
  exact lookupFS_setFS_self _ _ _

/-! ## Supporting lemmas for the stale-file reaper claims -/

theorem lookupFS_eq_none_iff {fs : FS} {p : FPath} :
    lookupFS fs p = none ↔ ∀ e ∈ fs, e.1 ≠ p := by
  unfold lookupFS
  rw [Option.map_eq_none', List.find?_eq_none]
  simp

theorem lookupFS_some_mem {fs : FS} {p : FPath} {c : String}
    (h : lookupFS fs p = some c) : ∃ e ∈ fs, e.1 = p := by
  unfold lookupFS at h
  cases hf : List.find? (fun e => decide (e.1 = p)) fs with
  | none => rw [hf] at h; simp at h
  | some e =>
    refine ⟨e, List.mem_of_find?_eq_some hf, ?_⟩
    simpa using List.find?_some hf

theorem lookupFS_filter_none {fs : FS} {p : FPath} (keep : FPath × String → Bool)
    (h : lookupFS fs p = none) : lookupFS (fs.filter keep) p = none := by
  rw [lookupFS_eq_none_iff] at h ⊢
  intro e he
  exact h e (List.mem_filter.mp he).1

theorem lookup_reapFS_deleted {dir : FPath} {alive : List FPath} {fs : FS} {p : FPath}
    (h : reapDelete dir alive p = true) :
    lookupFS (reapFS dir alive fs) p = none := by
  rw [lookupFS_eq_none_iff]
  intro e he hep
  have h2 := (List.mem_filter.mp he).2
  rw [hep, h] at h2
  simp at h2

theorem lookup_none_preserved (ops : List FsOp) (fs : FS) (p : FPath)
    (hp : ∀ q ∈ opsPaths ops, q ≠ p) (h : lookupFS fs p = none) :
    lookupFS (execOps fs ops).1 p = none := by
  induction ops generalizing fs with
  | nil => exact h
  | cons op ops ih =>
    rw [execOps_cons]
    simp only
    refine ih _ (fun q hq => hp q ?_) ?_
    · unfold opsPaths at hq ⊢
      rcases List.mem_filterMap.mp hq with ⟨o, ho, hqo⟩
      exact List.mem_filterMap.mpr ⟨o, List.mem_cons_of_mem _ ho, hqo⟩
    · cases op with
      | wic q c =>
        have hq : q ≠ p := hp q (by simp [opsPaths])
        simp only [execOp]
        rw [wic_fst_lookup_ne _ _ _ _ (fun he => hq he.symm)]
        exact h
      | put q c =>
        have hq : q ≠ p := hp q (by simp [opsPaths])
        simp only [execOp]
        rw [lookupFS_setFS_ne _ _ _ _ (fun he => hq he.symm)]
        exact h
      | reap dir alive =>
        simp only [execOp]
        exact lookupFS_filter_none _ h

theorem exec_from_empty_paths (ops : List FsOp) :
    ∀ e ∈ (execOps [] ops).1, e.1 ∈ opsPaths ops := by
  intro e he
  have hq := execOps_entry_pred (fun p => (opsPaths ops).contains p) ops []
    (by simp) ?hops e he
  · exact List.mem_of_elem_eq_true hq
  case hops =>
    intro op hop
    cases op with
    | wic p c =>
      exact List.elem_eq_true_of_mem
        (List.mem_filterMap.mpr ⟨FsOp.wic p c, hop, rfl⟩)
    | put p c =>
      exact List.elem_eq_true_of_mem
        (List.mem_filterMap.mpr ⟨FsOp.put p c, hop, rfl⟩)
    | reap dir alive => trivial

theorem opsPaths_frag (outDir : FPath) (skipEnv : Bool) (cache : List (String × String))
    (records : List ClassRecord) :
    opsPaths (fragmentOps outDir skipEnv cache records) = aliveList outDir records := by
  induction records with
  | nil => rfl
  | cons r rest ih =>
    show opsPaths (FsOp.wic (regPath outDir r) (regFragmentContent r)
      :: FsOp.wic (svcPath outDir r) (svcFragmentContent skipEnv r)
      :: fragmentOps outDir skipEnv cache rest)
      = regPath outDir r :: svcPath outDir r :: aliveList outDir rest
    simp only [opsPaths, List.filterMap_cons] at ih ⊢
    rw [ih]

theorem opsPaths_mainOps (records : List ClassRecord) (includes : List String)
    (outDir : FPath) (skipEnv : Bool) (cache : List (String × String)) :
    opsPaths (mainOps records includes outDir skipEnv cache)
      = (outDir ++ [("reflection_gen.h")])
        :: (aliveList outDir records
            ++ [outDir ++ [("reflection_registrations.cpp")],
                outDir ++ [("reflection_services.cpp")],
                outDir ++ [("reflection_auto_mount.cpp")],
                outDir ++ [("reflection_init.cpp")],
                outDir ++ [("reflection_classes_compilation.cpp")],
                cachePathOf outDir]) := by
  unfold mainOps mainOpsPre aggOps
  simp only [opsPaths, List.filterMap_cons, List.filterMap_append, List.cons_append,
    List.nil_append]
  rw [show (fragmentOps outDir skipEnv cache records).filterMap (fun op => match op with
    | .wic p _ => some p
    | .put p _ => some p
    | .reap _ _ => none) = aliveList outDir records from opsPaths_frag outDir skipEnv cache records]
  rfl

theorem run_lookup_written (records : List ClassRecord) (includes : List String)
    (outDir : FPath) (skipEnv : Bool) (cache : List (String × String)) (fs0 : FS)
    (hnames : (records.map ClassRecord.name).Nodup) :
    ∀ p ∈ opsPaths (mainOps records includes outDir skipEnv cache),
      ∃ ct, lookupFS (runMain records includes outDir skipEnv cache fs0).1 p = some ct := by
  intro p hp
  rcases List.mem_filterMap.mp hp with ⟨op, hop, hpath⟩
  cases op with
  | wic q ct =>
    simp only [Option.some.injEq] at hpath
    subst hpath
    exact ⟨ct, wics_hold _ fs0
      (mainOps_recoverable records includes outDir skipEnv cache hnames) _ _ hop⟩
  | put q ct =>
    simp only [Option.some.injEq] at hpath
    subst hpath
    rcases put_mem_mainOps hop with ⟨hq, hct⟩
    subst hq
    refine ⟨cacheJson (classHashMap records), ?_⟩
    show lookupFS (runMain records includes outDir skipEnv cache fs0).1
      (cachePathOf outDir) = _
    unfold runMain
    rw [mainOps_split_put, execOps_concat_put]
    exact lookupFS_setFS_self _ _ _
  | reap dir alive => simp at hpath

theorem underDir_regPath (outDir : FPath) (r : ClassRecord) :
    underDir (classesDirOf outDir) (regPath outDir r) = true := by
  unfold underDir regPath fragDir
  rw [Bool.and_eq_true]
  constructor
  · rw [List.isPrefixOf_iff_prefix, List.append_assoc]
    exact List.prefix_append _ _
  · simp

theorem underDir_svcPath (outDir : FPath) (r : ClassRecord) :
    underDir (classesDirOf outDir) (svcPath outDir r) = true := by
  unfold underDir svcPath fragDir
  rw [Bool.and_eq_true]
  constructor
  · rw [List.isPrefixOf_iff_prefix, List.append_assoc]
    exact List.prefix_append _ _
  · simp

theorem pyEndsWith_append (a b : String) : pyEndsWith (a ++ b) b = true := by
  unfold pyEndsWith
  rw [List.isSuffixOf_iff_suffix, strData_append]
  exact List.suffix_append _ _

theorem fragName_regPath (outDir : FPath) (r : ClassRecord) :
    isFragmentName (lastComponent (regPath outDir r)) = true := by
  unfold isFragmentName lastComponent regPath
  rw [show (fragDir outDir r ++ [r.name ++ ("_registration.cpp")]).getLastD ("")
      = r.name ++ ("_registration.cpp") by simp]
  rw [pyEndsWith_append]
  rfl

theorem fragName_svcPath (outDir : FPath) (r : ClassRecord) :
    isFragmentName (lastComponent (svcPath outDir r)) = true := by
  unfold isFragmentName lastComponent svcPath
  rw [show (fragDir outDir r ++ [r.name ++ ("_services.cpp")]).getLastD ("")
      = r.name ++ ("_services.cpp") by simp]
  rw [pyEndsWith_append]
  simp

/-- The removed class's name occurs in neither remaining record list. -/
theorem removed_name_fresh {L1 L2 : List ClassRecord} {c : ClassRecord}
    (hnames : ((L1 ++ c :: L2).map ClassRecord.name).Nodup) :
    ∀ r ∈ L1 ++ L2, r.name ≠ c.name := by
  rw [List.map_append, List.map_cons, List.nodup_append] at hnames
  rcases hnames with ⟨_, h2, hdisj⟩
  rw [List.nodup_cons] at h2
  intro r hr he
  rcases List.mem_append.mp hr with h | h
  · exact hdisj (he ▸ List.mem_map_of_mem _ h) (List.mem_cons_self _ _)
  · exact h2.1 (he ▸ List.mem_map_of_mem _ h)

theorem regPath_c_not_alive (outDir : FPath) {L1 L2 : List ClassRecord} {c : ClassRecord}
    (hnames : ((L1 ++ c :: L2).map ClassRecord.name).Nodup) :
    (aliveList outDir (L1 ++ L2)).contains (regPath outDir c) = false := by
  rw [Bool.eq_false_iff]
  intro hmem
  rcases List.mem_flatMap.mp (List.mem_of_elem_eq_true hmem) with ⟨r, hr, hpr⟩
  simp only [List.mem_cons, List.mem_singleton, List.not_mem_nil, or_false] at hpr
  rcases hpr with he | he
  · exact regPath_inj_name outDir (removed_name_fresh hnames r hr) he.symm
  · exact regPath_ne_svcPath outDir c r he

theorem svcPath_c_not_alive (outDir : FPath) {L1 L2 : List ClassRecord} {c : ClassRecord}
    (hnames : ((L1 ++ c :: L2).map ClassRecord.name).Nodup) :
    (aliveList outDir (L1 ++ L2)).contains (svcPath outDir c) = false := by
  rw [Bool.eq_false_iff]
  intro hmem
  rcases List.mem_flatMap.mp (List.mem_of_elem_eq_true hmem) with ⟨r, hr, hpr⟩
  simp only [List.mem_cons, List.mem_singleton, List.not_mem_nil, or_false] at hpr
  rcases hpr with he | he
  · exact regPath_ne_svcPath outDir r c he.symm
  · exact svcPath_inj_name outDir (removed_name_fresh hnames r hr) he.symm

theorem reapDelete_removed_reg (outDir : FPath) {L1 L2 : List ClassRecord} {c : ClassRecord}
    (hnames : ((L1 ++ c :: L2).map ClassRecord.name).Nodup) :
    reapDelete (classesDirOf outDir) (aliveList outDir (L1 ++ L2)) (regPath outDir c) = true := by
  unfold reapDelete
  rw [underDir_regPath, fragName_regPath, regPath_c_not_alive outDir hnames]
  rfl

theorem reapDelete_removed_svc (outDir : FPath) {L1 L2 : List ClassRecord} {c : ClassRecord}
    (hnames : ((L1 ++ c :: L2).map ClassRecord.name).Nodup) :
    reapDelete (classesDirOf outDir) (aliveList outDir (L1 ++ L2)) (svcPath outDir c) = true := by
  unfold reapDelete
  rw [underDir_svcPath, fragName_svcPath, svcPath_c_not_alive outDir hnames]
  rfl

theorem alive_mono (outDir : FPath) (L1 L2 : List ClassRecord) (c : ClassRecord) :
    ∀ p ∈ aliveList outDir (L1 ++ L2), p ∈ aliveList outDir (L1 ++ c :: L2) := by
  intro p hp
  rcases List.mem_flatMap.mp hp with ⟨r, hr, hpr⟩
  refine List.mem_flatMap.mpr ⟨r, ?_, hpr⟩
  rcases List.mem_append.mp hr with h | h
  · exact List.mem_append_left _ h
  · exact List.mem_append_right _ (List.mem_cons_of_mem _ h)

theorem alive_drop (outDir : FPath) (L1 L2 : List ClassRecord) (c : ClassRecord)
    (p : FPath) (hp : p ∈ aliveList outDir (L1 ++ c :: L2))
    (h1 : p ≠ regPath outDir c) (h2 : p ≠ svcPath outDir c) :
    p ∈ aliveList outDir (L1 ++ L2) := by
  rcases List.mem_flatMap.mp hp with ⟨r, hr, hpr⟩
  rcases List.mem_append.mp hr with h | h
  · exact List.mem_flatMap.mpr ⟨r, List.mem_append_left _ h, hpr⟩
  · rcases List.mem_cons.mp h with he | h
    · subst he
      simp only [List.mem_cons, List.mem_singleton, List.not_mem_nil, or_false] at hpr
      rcases hpr with he | he
      · exact absurd he h1
      · exact absurd he h2
    · exact List.mem_flatMap.mpr ⟨r, List.mem_append_right _ h, hpr⟩

/-- C5: the stale-file reaper is conservative and exact.  (1) In any run,
a file that existed and was deleted by the reap necessarily lies below the
classes output directory, matches the generated-fragment naming convention
(`*_registration.cpp` or `*_services.cpp`), and is not in the alive set of
the current run — no other file is ever deleted.  (2) Starting from an
empty output tree, generating for `L1 ++ [c] ++ L2` and then re-running
with class `c` removed deletes exactly `c`'s two fragment files: both
existed after the first run, both are gone after the second, and every
other path exists after the second run exactly when it existed after the
first. -/
theorem reaper_deletes_exactly_removed_class
    (L1 L2 : List ClassRecord) (c : ClassRecord)
    (includes includes2 : List String) (outDir : FPath) (skipEnv skipEnv2 : Bool)
    (cache cache2 : List (String × String))
    (hnames : ((L1 ++ c :: L2).map ClassRecord.name).Nodup) :
    (∀ (dir : FPath) (alive : List FPath) (fs : FS) (e : FPath × String),
        e ∈ fs → e ∉ reapFS dir alive fs →
        underDir dir e.1 = true ∧ isFragmentName (lastComponent e.1) = true ∧
          e.1 ∉ alive) ∧
    lookupFS (runMain (L1 ++ c :: L2) includes outDir skipEnv cache []).1
        (regPath outDir c) = some (regFragmentContent c) ∧
    lookupFS (runMain (L1 ++ c :: L2) includes outDir skipEnv cache []).1
        (svcPath outDir c) = some (svcFragmentContent skipEnv c) ∧
    lookupFS (runMain (L1 ++ L2) includes2 outDir skipEnv2 cache2
        (runMain (L1 ++ c :: L2) includes outDir skipEnv cache []).1).1
        (regPath outDir c) = none ∧
    lookupFS (runMain (L1 ++ L2) includes2 outDir skipEnv2 cache2
        (runMain (L1 ++ c :: L2) includes outDir skipEnv cache []).1).1
        (svcPath outDir c) = none ∧
    (∀ p : FPath, p ≠ regPath outDir c → p ≠ svcPath outDir c →
        (lookupFS (runMain (L1 ++ L2) includes2 outDir skipEnv2 cache2
            (runMain (L1 ++ c :: L2) includes outDir skipEnv cache []).1).1 p = none
          ↔ lookupFS (runMain (L1 ++ c :: L2) includes outDir skipEnv cache []).1 p
              = none)) := by
  have hNodup2 : ((L1 ++ L2).map ClassRecord.name).Nodup := by
    have hsub : List.Sublist ((L1 ++ L2).map ClassRecord.name)
        ((L1 ++ c :: L2).map ClassRecord.name) := by
      rw [List.map_append, List.map_append, List.map_cons]
      exact List.Sublist.append_left (List.sublist_cons_self _ _) _
    exact hnames.sublist hsub
  have hsubsetPaths : ∀ q ∈ opsPaths (mainOps (L1 ++ L2) includes2 outDir skipEnv2 cache2),
      q ∈ opsPaths (mainOps (L1 ++ c :: L2) includes outDir skipEnv cache) := by
    intro q hq
    rw [opsPaths_mainOps] at hq ⊢
    rcases List.mem_cons.mp hq with he | hq2
    · exact he ▸ List.mem_cons_self _ _
    · rcases List.mem_append.mp hq2 with h | h
      · exact List.mem_cons_of_mem _ (List.mem_append_left _ (alive_mono outDir L1 L2 c q h))
      · exact List.mem_cons_of_mem _ (List.mem_append_right _ h)
  have hdropPaths : ∀ q ∈ opsPaths (mainOps (L1 ++ c :: L2) includes outDir skipEnv cache),
      q ≠ regPath outDir c → q ≠ svcPath outDir c →
      q ∈ opsPaths (mainOps (L1 ++ L2) includes2 outDir skipEnv2 cache2) := by
    intro q hq h1 h2
    rw [opsPaths_mainOps] at hq ⊢
    rcases List.mem_cons.mp hq with he | hq2
    · exact he ▸ List.mem_cons_self _ _
    · rcases List.mem_append.mp hq2 with h | h
      · exact List.mem_cons_of_mem _
          (List.mem_append_left _ (alive_drop outDir L1 L2 c q h h1 h2))
      · exact List.mem_cons_of_mem _ (List.mem_append_right _ h)
  refine ⟨?_, ?_, ?_, ?_, ?_, ?_⟩
  · intro dir alive fs e he hnot
    have hk : ¬((!(reapDelete dir alive e.1)) = true) := fun hk =>
      hnot (List.mem_filter.mpr ⟨he, hk⟩)
    have hdel : reapDelete dir alive e.1 = true := by simpa using hk
    unfold reapDelete at hdel
    rw [Bool.and_eq_true, Bool.and_eq_true] at hdel
    refine ⟨hdel.1.1, hdel.1.2, ?_⟩
    intro hmem
    have hc : alive.contains e.1 = true := List.elem_eq_true_of_mem hmem
    rw [hc] at hdel
    simp at hdel
  · apply wics_hold _ _ (mainOps_recoverable _ includes outDir skipEnv cache hnames)
    unfold mainOps mainOpsPre
    apply List.mem_append_left
    apply List.mem_cons_of_mem
    refine List.mem_flatMap.mpr ⟨c, List.mem_append_right _ (List.mem_cons_self _ _), ?_⟩
    simp
  · apply wics_hold _ _ (mainOps_recoverable _ includes outDir skipEnv cache hnames)
    unfold mainOps mainOpsPre
    apply List.mem_append_left
    apply List.mem_cons_of_mem
    refine List.mem_flatMap.mpr ⟨c, List.mem_append_right _ (List.mem_cons_self _ _), ?_⟩
    simp
  · show lookupFS (execOps (runMain (L1 ++ c :: L2) includes outDir skipEnv cache []).1
        (mainOps (L1 ++ L2) includes2 outDir skipEnv2 cache2)).1 _ = none
    rw [show mainOps (L1 ++ L2) includes2 outDir skipEnv2 cache2
        = mainOpsPre (L1 ++ L2) includes2 outDir skipEnv2 cache2
          ++ (FsOp.reap (classesDirOf outDir) (aliveList outDir (L1 ++ L2))
              :: (aggOps (L1 ++ L2) outDir
                  ++ [FsOp.put (cachePathOf outDir) (cacheJson (classHashMap (L1 ++ L2)))]))
      from rfl]
    rw [execOps_append, execOps_cons]
    simp only [execOp]
    rw [lookup_preserved _ _ _ ?hpresr]
    · exact lookup_reapFS_deleted (reapDelete_removed_reg outDir hnames)
    case hpresr =>
      intro op hop
      rcases List.mem_append.mp hop with h | h
      · simp only [aggOps, List.cons_append, List.nil_append] at h
        fin_cases h <;> exact sibling_ne_regPath outDir _ c
      · simp at h
        rw [h]
        exact sibling_ne_regPath outDir _ c
  · show lookupFS (execOps (runMain (L1 ++ c :: L2) includes outDir skipEnv cache []).1
        (mainOps (L1 ++ L2) includes2 outDir skipEnv2 cache2)).1 _ = none
    rw [show mainOps (L1 ++ L2) includes2 outDir skipEnv2 cache2
        = mainOpsPre (L1 ++ L2) includes2 outDir skipEnv2 cache2
          ++ (FsOp.reap (classesDirOf outDir) (aliveList outDir (L1 ++ L2))
              :: (aggOps (L1 ++ L2) outDir
                  ++ [FsOp.put (cachePathOf outDir) (cacheJson (classHashMap (L1 ++ L2)))]))
      from rfl]
    rw [execOps_append, execOps_cons]
    simp only [execOp]
    rw [lookup_preserved _ _ _ ?hpress]
    · exact lookup_reapFS_deleted (reapDelete_removed_svc outDir hnames)
    case hpress =>
      intro op hop
      rcases List.mem_append.mp hop with h | h
      · simp only [aggOps, List.cons_append, List.nil_append] at h
        fin_cases h <;> exact sibling_ne_svcPath outDir _ c
      · simp at h
        rw [h]
        exact sibling_ne_svcPath outDir _ c
  · intro p h1 h2
    constructor
    · intro h2none
      by_contra h1some
      rcases Option.ne_none_iff_exists'.mp h1some with ⟨ct, hct⟩
      rcases lookupFS_some_mem hct with ⟨e, he, hep⟩
      have hpaths : e.1 ∈ opsPaths (mainOps (L1 ++ c :: L2) includes outDir skipEnv cache) :=
        exec_from_empty_paths _ e he
      rw [hep] at hpaths
      have hp2 := hdropPaths p hpaths h1 h2
      rcases run_lookup_written (L1 ++ L2) includes2 outDir skipEnv2 cache2
        (runMain (L1 ++ c :: L2) includes outDir skipEnv cache []).1 hNodup2 p hp2
        with ⟨ct2, hct2⟩
      rw [hct2] at h2none
      exact absurd h2none (by simp)
    · intro hnone
      by_cases hp2 : p ∈ opsPaths (mainOps (L1 ++ L2) includes2 outDir skipEnv2 cache2)
      · rcases run_lookup_written (L1 ++ c :: L2) includes outDir skipEnv cache [] hnames p
          (hsubsetPaths p hp2) with ⟨ct, hct⟩
        rw [hct] at hnone
        exact absurd hnone (by simp)
      · exact lookup_none_preserved _ _ p (fun q hq he => hp2 (he ▸ hq)) hnone

theorem generator_idempotent_witness :
    (runMain [idemRecA, idemRecB] [("A.h")] [("out")] false []
        (runMain [idemRecA, idemRecB] [("A.h")] [("out")] false [] []).1).1
      = (runMain [idemRecA, idemRecB] [("A.h")] [("out")] false [] []).1 ∧
    ((runMain [idemRecA, idemRecB] [("A.h")] [("out")] false []
        (runMain [idemRecA, idemRecB] [("A.h")] [("out")] false [] []).1).2.all
      (fun b => b = false)) = true :=
  generator_idempotent [idemRecA, idemRecB] [("A.h")] [("out")] false [] [] []
    (by decide)

theorem reaper_deletes_exactly_removed_class_witness :
    (∀ (dir : FPath) (alive : List FPath) (fs : FS) (e : FPath × String),
        e ∈ fs → e ∉ reapFS dir alive fs →
        underDir dir e.1 = true ∧ isFragmentName (lastComponent e.1) = true ∧
          e.1 ∉ alive) ∧
    lookupFS (runMain ([idemRecA] ++ idemRecB :: []) [("A.h")] [("out")] false [] []).1
        (regPath [("out")] idemRecB) = some (regFragmentContent idemRecB) ∧
    lookupFS (runMain ([idemRecA] ++ idemRecB :: []) [("A.h")] [("out")] false [] []).1
        (svcPath [("out")] idemRecB) = some (svcFragmentContent false idemRecB) ∧
    lookupFS (runMain ([idemRecA] ++ []) [("A.h")] [("out")] false []
        (runMain ([idemRecA] ++ idemRecB :: []) [("A.h")] [("out")] false [] []).1).1
        (regPath [("out")] idemRecB) = none ∧
    lookupFS (runMain ([idemRecA] ++ []) [("A.h")] [("out")] false []
        (runMain ([idemRecA] ++ idemRecB :: []) [("A.h")] [("out")] false [] []).1).1
        (svcPath [("out")] idemRecB) = none ∧
    (∀ p : FPath, p ≠ regPath [("out")] idemRecB → p ≠ svcPath [("out")] idemRecB →
        (lookupFS (runMain ([idemRecA] ++ []) [("A.h")] [("out")] false []
            (runMain ([idemRecA] ++ idemRecB :: []) [("A.h")] [("out")] false [] []).1).1 p
              = none
          ↔ lookupFS (runMain ([idemRecA] ++ idemRecB :: []) [("A.h")] [("out")] false [] []).1 p
              = none)) :=
  reaper_deletes_exactly_removed_class [idemRecA] [] idemRecB [("A.h")] [("A.h")]
    [("out")] false false [] [] (by decide)

theorem tests_slash_classes_excluded_witness :
    testsSlashRecord ∉ aggregatorClasses [idemRecA, testsSlashRecord] ∧
    ("void RegisterClass_" ++ testsSlashRecord.name ++ "();")
      ∉ generate_registrations_lines [idemRecA, testsSlashRecord] ∧
    ("    RegisterClass_" ++ testsSlashRecord.name ++ "();")
      ∉ generate_registrations_lines [idemRecA, testsSlashRecord] ∧
    ("void RegisterRpc_" ++ testsSlashRecord.name ++ "();")
      ∉ generate_services_lines [idemRecA, testsSlashRecord] ∧
    ("    RegisterRpc_" ++ testsSlashRecord.name ++ "();")
      ∉ generate_services_lines [idemRecA, testsSlashRecord] ∧
    regPath [("out")] testsSlashRecord ∈ aliveList [("out")] [idemRecA, testsSlashRecord] ∧
    svcPath [("out")] testsSlashRecord ∈ aliveList [("out")] [idemRecA, testsSlashRecord] :=
  tests_slash_classes_excluded [idemRecA, testsSlashRecord] [("out")] testsSlashRecord
    (by decide) (by decide) (by decide)
